import Mathlib

set_option maxRecDepth 100000

/-!
# A verification development for the to-do list controller (`src/day2/script.js`)

The class `TodoApp` of `script.js` is embedded as pure functions on an explicit
state record.  Conventions of the embedding:

* a JavaScript number used as a task identifier is an `Int`.  The two places
  where the script computes on identifiers (`Math.max(...) + 1` in the constructor
  and `taskIdCounter++` in `addTask`) are given twice: on exact integers (`new`,
  `addTask`, `step`, `run`) and on JavaScript numbers (`newDouble`, `addTaskDouble`,
  `stepDouble`, `runDouble`, built on `jsAddOne`).  The two agree as long as the
  counter stays below `2^53`, which from an empty storage takes `2^53` events
  (`runDouble_fresh_eq_run`);
* a JavaScript string is a `String`;
* a handler that stops with an uncaught exception returns `Except.error`;
* the page is represented by what the controller reads and writes: the value of
  the text-entry field, the `li` children of the list container, the summary
  texts, and the `localStorage` slot `todoTasks`.  The only elements carrying a
  `data-id` attribute are the `li` items built by `render`.  Inline styles and
  the `active` class of the filter buttons are presentation only and are not
  represented;
* a callback handed to `setTimeout(…, 300)` is recorded in the queue `timeouts`
  and runs when the event `Event.timeout` takes it from the front of the queue
  (timers of equal delay fire in the order in which they were set).
-/

namespace TodoApp

/-! ## Platform functions used by the script -/

/-- The code points that `String.prototype.trim` strips (ECMAScript `WhiteSpace`
and `LineTerminator`). -/
def isJsWhiteSpace (c : Char) : Bool :=
  let n := c.toNat
  n == 0x9 || n == 0xA || n == 0xB || n == 0xC || n == 0xD || n == 0x20 ||
  n == 0xA0 || n == 0x1680 || (0x2000 ≤ n && n ≤ 0x200A) ||
  n == 0x2028 || n == 0x2029 || n == 0x202F || n == 0x205F || n == 0x3000 ||
  n == 0xFEFF

/-- Removal of leading and trailing white space from a list of characters. -/
def trimChars (l : List Char) : List Char :=
  ((l.dropWhile isJsWhiteSpace).reverse.dropWhile isJsWhiteSpace).reverse

/-- The method `String.prototype.trim`. -/
def jsTrim (s : String) : String := ⟨trimChars s.data⟩

/-- The HTML fragment serialisation of one character of a text node: what
reading `innerHTML` gives for a character written through `textContent`. -/
def escapeChar (c : Char) : List Char :=
  if c = '&' then ['&', 'a', 'm', 'p', ';']
  else if c = '\u00A0' then ['&', 'n', 'b', 's', 'p', ';']
  else if c = '<' then ['&', 'l', 't', ';']
  else if c = '>' then ['&', 'g', 't', ';']
  else [c]

/-- Serialisation of a text node, character by character. -/
def escapeChars : List Char → List Char
  | [] => []
  | c :: rest => escapeChar c ++ escapeChars rest

/-- Newline normalisation of the parser's input stream: a CR LF pair and a lone CR
become one LF.  `afterCR` tells that the character before was a CR. -/
def normalizeNewlines (afterCR : Bool) : List Char → List Char
  | [] => []
  | c :: rest =>
    if c = '\r' then '\n' :: normalizeNewlines true rest
    else if c = '\n' ∧ afterCR = true then normalizeNewlines false rest
    else c :: normalizeNewlines false rest

/-- What the parser hands to the tree: tags and the characters of text. -/
inductive Node
  | startTag (name : String) (attrs : List (String × String))
  | endTag (name : String)
  | text (c : Char)
deriving DecidableEq, Repr

/-- The states of the tokenizer that the markup of a task item goes through. -/
inductive ScanState
  | data
  | charRef (seen : List Char)
  | tagOpen
  | endTagOpen
  | tagName (isEnd : Bool) (name : List Char)
  | beforeAttrName (name : List Char) (attrs : List (String × String))
  | attrName (name : List Char) (attrs : List (String × String)) (attr : List Char)
  | afterAttrName (name : List Char) (attrs : List (String × String)) (attr : List Char)
  | beforeAttrValue (name : List Char) (attrs : List (String × String)) (attr : List Char)
  | attrValue (name : List Char) (attrs : List (String × String)) (attr : List Char)
      (value : List Char)
  | afterAttrValue (name : List Char) (attrs : List (String × String))
deriving DecidableEq, Repr

/-- The white space of the tokenizer: tab, line feed, form feed, space. -/
def isHtmlSpace (c : Char) : Bool :=
  c == '\t' || c == '\n' || c == '\x0c' || c == ' '

/-- The named character references that the serialiser writes. -/
def charRefStep (seen : List Char) : Option (ScanState × List Node) :=
  if seen = ['a', 'm', 'p', ';'] then some (.data, [.text '&'])
  else if seen = ['n', 'b', 's', 'p', ';'] then some (.data, [.text '\u00A0'])
  else if seen = ['l', 't', ';'] then some (.data, [.text '<'])
  else if seen = ['g', 't', ';'] then some (.data, [.text '>'])
  else if seen ∈ [['a'], ['a', 'm'], ['a', 'm', 'p'], ['n'], ['n', 'b'], ['n', 'b', 's'],
      ['n', 'b', 's', 'p'], ['l'], ['l', 't'], ['g'], ['g', 't']] then
    some (.charRef seen, [])
  else none

/-- One step of the tokenizer together with the tree builder `in body`: the new
state and the nodes produced.  `none` stands for markup outside the part of the
HTML syntax that is represented (comments, unquoted or single-quoted attribute
values, self-closing tags, other character references, malformed tags). -/
def scanStep : ScanState → Char → Option (ScanState × List Node)
  | .data, c =>
    if c = '&' then some (.charRef [], [])
    else if c = '<' then some (.tagOpen, [])
    else if c = '\x00' then some (.data, [])
    else some (.data, [.text c])
  | .charRef seen, c => charRefStep (seen ++ [c])
  | .tagOpen, c =>
    if c = '/' then some (.endTagOpen, [])
    else if c.isAlpha then some (.tagName false [c.toLower], [])
    else none
  | .endTagOpen, c =>
    if c.isAlpha then some (.tagName true [c.toLower], [])
    else none
  | .tagName isEnd name, c =>
    if c = '>' then
      some (.data, [if isEnd then .endTag ⟨name⟩ else .startTag ⟨name⟩ []])
    else if isHtmlSpace c then
      (if isEnd then none else some (.beforeAttrName name [], []))
    else if c = '/' ∨ c = '\x00' then none
    else some (.tagName isEnd (name ++ [c.toLower]), [])
  | .beforeAttrName name attrs, c =>
    if isHtmlSpace c then some (.beforeAttrName name attrs, [])
    else if c = '>' then some (.data, [.startTag ⟨name⟩ attrs])
    else if c = '/' ∨ c = '=' ∨ c = '\x00' ∨ c = '"' ∨ c = Char.ofNat 39 ∨ c = '<' then none
    else some (.attrName name attrs [c.toLower], [])
  | .attrName name attrs attr, c =>
    if isHtmlSpace c then some (.afterAttrName name attrs attr, [])
    else if c = '>' then some (.data, [.startTag ⟨name⟩ (attrs ++ [(⟨attr⟩, "")])])
    else if c = '=' then some (.beforeAttrValue name attrs attr, [])
    else if c = '/' ∨ c = '\x00' ∨ c = '"' ∨ c = Char.ofNat 39 ∨ c = '<' then none
    else some (.attrName name attrs (attr ++ [c.toLower]), [])
  | .afterAttrName name attrs attr, c =>
    if isHtmlSpace c then some (.afterAttrName name attrs attr, [])
    else if c = '>' then some (.data, [.startTag ⟨name⟩ (attrs ++ [(⟨attr⟩, "")])])
    else if c = '=' then some (.beforeAttrValue name attrs attr, [])
    else if c = '/' ∨ c = '\x00' ∨ c = '"' ∨ c = Char.ofNat 39 ∨ c = '<' then none
    else some (.attrName name (attrs ++ [(⟨attr⟩, "")]) [c.toLower], [])
  | .beforeAttrValue name attrs attr, c =>
    if isHtmlSpace c then some (.beforeAttrValue name attrs attr, [])
    else if c = '"' then some (.attrValue name attrs attr [], [])
    else none
  | .attrValue name attrs attr value, c =>
    if c = '"' then some (.afterAttrValue name (attrs ++ [(⟨attr⟩, ⟨value⟩)]), [])
    else if c = '&' ∨ c = '\x00' then none
    else some (.attrValue name attrs attr (value ++ [c]), [])
  | .afterAttrValue name attrs, c =>
    if isHtmlSpace c then some (.beforeAttrName name attrs, [])
    else if c = '>' then some (.data, [.startTag ⟨name⟩ attrs])
    else none

/-- The tokenizer run over a list of characters. -/
def scan : ScanState → List Char → Option (ScanState × List Node)
  | s, [] => some (s, [])
  | s, c :: rest =>
    (scanStep s c).bind fun r1 =>
      (scan r1.1 rest).map fun r2 => (r2.1, r1.2 ++ r2.2)

/-- The nodes that assigning a markup to `innerHTML` produces. -/
def parseMarkup (markup : String) : Option (List Node) :=
  match scan .data (normalizeNewlines false markup.data) with
  | some (.data, nodes) => some nodes
  | _ => none


/-- The text that the parser reads back from the serialised text: newlines
normalised, NUL characters dropped. -/
def displayedChars (l : List Char) : List Char :=
  (normalizeNewlines false l).filter (fun c => c != '\x00')

/-- The characters of text up to the next end tag; `none` when an element starts
before. -/
def textUntilEndTag : List Node → Option (List Char)
  | [] => none
  | .text c :: rest =>
    match textUntilEndTag rest with
    | some l => some (c :: l)
    | none => none
  | .endTag _ :: _ => some []
  | .startTag _ _ :: _ => none

/-- The white-space separated tokens of an attribute value; `cur` is the token
being read. -/
def splitTokens : List Char → List Char → List (List Char)
  | cur, [] => if cur = [] then [] else [cur]
  | cur, c :: rest =>
    if isHtmlSpace c then
      (if cur = [] then splitTokens [] rest else cur :: splitTokens [] rest)
    else splitTokens (cur ++ [c]) rest

/-- An element with these attributes matches the selector `.cls`. -/
def hasClass (cls : String) (attrs : List (String × String)) : Bool :=
  match attrs.lookup "class" with
  | some value => decide (cls.data ∈ splitTokens [] value.data)
  | none => false

/-- The elements that have no content. -/
def voidElements : List String :=
  ["area", "base", "br", "col", "embed", "hr", "img", "input", "link", "meta", "source",
   "track", "wbr"]

/-- The text of the first element matching `.task-text`: the value of
`li.querySelector('.task-text').textContent`. -/
def taskTextContent : List Node → Option (List Char)
  | [] => none
  | .startTag name attrs :: rest =>
    if hasClass "task-text" attrs then
      (if name ∈ voidElements then some [] else textUntilEndTag rest)
    else taskTextContent rest
  | _ :: rest => taskTextContent rest

/-- The text of a task as the page shows it, as a string. -/
def displayedText (text : String) : String := ⟨displayedChars text.data⟩

/-- The text nodes of a string. -/
def textNodes (s : String) : List Node := s.data.map Node.text

/-- The sum `n + 1` of JavaScript numbers, for an integer `n` that is a number (an
IEEE 754 double; the sum is rounded to the nearest double, ties to the even
significand).  From `-2^53` up to `2^53 - 1` the sum is exact; from `2^53` up to
`2^54` and from `-2^54` up to `-2^53` the doubles are the even integers and `n + 1`
lies half way between `n` and `n + 2`; beyond, `n + 1` rounds back to `n`. -/
def jsAddOne (n : Int) : Int :=
  if -9007199254740992 ≤ n ∧ n < 9007199254740992 then n + 1
  else if -18014398509481984 ≤ n ∧ n < 18014398509481984 then
    (if (n / 2) % 2 = 0 then n else n + 2)
  else n

/-! ## Data model -/

/-- A task record, as built by `addTask` and as stored in `localStorage`. -/
structure Task where
  id : Int
  text : String
  completed : Bool
  createdAt : String
deriving DecidableEq, Repr

/-- The exceptions that a handler of the script can stop with. -/
inductive JsError
  | syntaxError
  | typeError
deriving DecidableEq, Repr

/-- The text held by the `localStorage` slot `todoTasks`, described by what
`JSON.parse` does with it: `tasks l` is the text `JSON.stringify` writes for the
array `l` (and `JSON.parse` reads back as `l`); `malformed text` is a text that is
not JSON, on which `JSON.parse` throws a `SyntaxError`.  Texts that are JSON but
not an array of task records are not represented. -/
inductive Stored
  | tasks (l : List Task)
  | malformed (text : String)
deriving DecidableEq, Repr

/-- The persistence collaborator: the slot `todoTasks` (`none` when the key is
absent, so that `getItem` gives `null`) and the number of `setItem` calls made. -/
structure LocalStorage where
  todoTasks : Option Stored
  setItemCalls : Nat
deriving DecidableEq, Repr

/-- An `li` element built by `createTaskElement`. -/
structure TaskElement where
  dataId : Int
  className : String
  removing : Bool
  editMode : Bool
  contentEditable : Bool
  innerHTML : String
  textContent : String
deriving DecidableEq, Repr

/-- The callbacks that the script hands to `setTimeout(…, 300)`. -/
inductive Timeout
  | removeTask (id : Int)
  | removeCompleted
deriving DecidableEq, Repr

end TodoApp

/-- The controller state: the fields of the class `TodoApp` together with the
part of the page it reads and writes. -/
structure TodoApp where
  tasks : List TodoApp.Task
  currentFilter : String
  taskIdCounter : Int
  taskInput : String
  taskList : List TodoApp.TaskElement
  emptyStateDisplay : String
  totalTasks : String
  completedTasks : String
  clearCompletedDisabled : Bool
  timeouts : List TodoApp.Timeout
  localStorage : TodoApp.LocalStorage
deriving DecidableEq, Repr

namespace TodoApp

/-- The closure variables of an edit session opened by `editTask`. -/
structure EditSession where
  id : Int
  currentText : String
deriving DecidableEq, Repr

/-- In-place update of the first element satisfying `p`: the object that
`Array.prototype.find` or `querySelector` returns is mutated where it sits. -/
def mutateFirst {α : Type} (p : α → Bool) (f : α → α) : List α → List α
  | [] => []
  | x :: xs => if p x then f x :: xs else x :: mutateFirst p f xs

/-- The value of `JSON.parse(localStorage.getItem('todoTasks'))`: `null` for an absent
key, the task array for a stored array, an exception for a text that is not
JSON. -/
def jsonParseItem : Option Stored → Except JsError (Option (List Task))
  | none => .ok none
  | some (.tasks l) => .ok (some l)
  | some (.malformed _) => .error .syntaxError

/-- The method `escapeHtml`: the text is written into a fresh element through
`textContent` and read back through `innerHTML`. -/
def escapeHtml (text : String) : String := ⟨escapeChars text.data⟩

/-- The method `saveToLocalStorage`. -/
def saveToLocalStorage (app : TodoApp) : TodoApp :=
  { app with localStorage :=
      { todoTasks := some (.tasks app.tasks)
        setItemCalls := app.localStorage.setItemCalls + 1 } }

/-- The method `getFilteredTasks`. -/
def getFilteredTasks (app : TodoApp) : List Task :=
  if app.currentFilter = "pending" then app.tasks.filter (fun task => !task.completed)
  else if app.currentFilter = "completed" then app.tasks.filter (fun task => task.completed)
  else app.tasks

/-- The part of the template of `createTaskElement` before the task text. -/
def markupBefore (completed : Bool) : String :=
  "\n            <input type=\"checkbox\" class=\"task-checkbox\" " ++
  (if completed then "checked" else "") ++
  ">\n            <span class=\"task-text\">"

/-- The part of the template of `createTaskElement` after the task text. -/
def markupAfter : String :=
  "</span>\n            <div class=\"task-actions\">\n                <button class=\"action-btn edit-btn\" title=\"Edit task\">\n                    <i class=\"fas fa-edit\"></i>\n                </button>\n                <button class=\"action-btn delete-btn\" title=\"Delete task\">\n                    <i class=\"fas fa-trash\"></i>\n                </button>\n            </div>\n        "

/-- The markup that `createTaskElement` assigns to `li.innerHTML`: the template
with the escaped task text in it. -/
def taskMarkup (task : Task) : String :=
  markupBefore task.completed ++ escapeHtml task.text ++ markupAfter

/-- The value of `li.querySelector('.task-text').textContent` for an item whose
`innerHTML` is the given markup. -/
def taskTextOfMarkup (markup : String) : String :=
  match parseMarkup markup with
  | some nodes =>
    match taskTextContent nodes with
    | some l => ⟨l⟩
    | none => ""
  | none => ""

/-- The method `createTaskElement`.  The text of the `.task-text` span is read
from the nodes that the parser builds from the markup. -/
def createTaskElement (task : Task) : TaskElement :=
  { dataId := task.id
    className := "task-item " ++ (if task.completed then "completed" else "")
    removing := false
    editMode := false
    contentEditable := false
    innerHTML := taskMarkup task
    textContent := taskTextOfMarkup (taskMarkup task) }

/-- The method `updateStats`. -/
def updateStats (app : TodoApp) : TodoApp :=
  let total := app.tasks.length
  let completed := (app.tasks.filter (fun task => task.completed)).length
  { app with
    totalTasks := toString total ++ " task" ++ (if total ≠ 1 then "s" else "")
    completedTasks := toString completed ++ " completed"
    clearCompletedDisabled := decide (completed = 0) }

/-- The method `render`. -/
def render (app : TodoApp) : TodoApp :=
  let filteredTasks := getFilteredTasks app
  updateStats { app with
    taskList := filteredTasks.map createTaskElement
    emptyStateDisplay := if filteredTasks.length = 0 then "block" else "none" }

/-- The value `Math.max(...ids) + 1` for a non-empty list, `1` for the empty one,
computed on exact integers: the value of the script as long as the largest
identifier lies from `-2^53` up to `2^53 - 1` (`nextIdDouble` is the general case). -/
def nextId : List Int → Int
  | [] => 1
  | i :: rest => rest.foldl max i + 1

/-- The constructor of the class, run on page load against the stored slot, with
the counter computed on exact integers (`newDouble` is the general case). -/
def new (localStorage : LocalStorage) : Except JsError TodoApp :=
  match jsonParseItem localStorage.todoTasks with
  | .error e => .error e
  | .ok parsed =>
    let tasks := parsed.getD []
    .ok (render
      { tasks := tasks
        currentFilter := "all"
        taskIdCounter := nextId (tasks.map (fun t => t.id))
        taskInput := ""
        taskList := []
        emptyStateDisplay := ""
        totalTasks := ""
        completedTasks := ""
        clearCompletedDisabled := false
        timeouts := []
        localStorage := localStorage })

/-- The method `addTask`; `now` is the value of `new Date().toISOString()`.  The
counter is incremented on exact integers: the value of the script as long as the
counter lies from `-2^53` up to `2^53 - 1` (`addTaskDouble` is the general case). -/
def addTask (app : TodoApp) (now : String) : TodoApp :=
  let text := jsTrim app.taskInput
  if text = "" then app
  else
    let task : Task :=
      { id := app.taskIdCounter, text := text, completed := false, createdAt := now }
    render (saveToLocalStorage
      { app with
        taskIdCounter := app.taskIdCounter + 1
        tasks := task :: app.tasks
        taskInput := "" })

/-- The value `Math.max(...ids) + 1` computed on JavaScript numbers. -/
def nextIdDouble : List Int → Int
  | [] => 1
  | i :: rest => jsAddOne (rest.foldl max i)

/-- The constructor with the counter computed on JavaScript numbers. -/
def newDouble (localStorage : LocalStorage) : Except JsError TodoApp :=
  match jsonParseItem localStorage.todoTasks with
  | .error e => .error e
  | .ok parsed =>
    let tasks := parsed.getD []
    .ok (render
      { tasks := tasks
        currentFilter := "all"
        taskIdCounter := nextIdDouble (tasks.map (fun t => t.id))
        taskInput := ""
        taskList := []
        emptyStateDisplay := ""
        totalTasks := ""
        completedTasks := ""
        clearCompletedDisabled := false
        timeouts := []
        localStorage := localStorage })

/-- The method `addTask` with `this.taskIdCounter++` computed on JavaScript
numbers. -/
def addTaskDouble (app : TodoApp) (now : String) : TodoApp :=
  let text := jsTrim app.taskInput
  if text = "" then app
  else
    let task : Task :=
      { id := app.taskIdCounter, text := text, completed := false, createdAt := now }
    render (saveToLocalStorage
      { app with
        taskIdCounter := jsAddOne app.taskIdCounter
        tasks := task :: app.tasks
        taskInput := "" })

/-- The callback that `deleteTask` hands to `setTimeout`. -/
def deleteTaskTimeout (id : Int) (app : TodoApp) : TodoApp :=
  render (saveToLocalStorage
    { app with tasks := app.tasks.filter (fun task => task.id != id) })

/-- The method `deleteTask`: the element is looked up, marked, and the removal is
scheduled.  Without an element of that `data-id` the access `taskElement.classList`
is made on `null`. -/
def deleteTask (app : TodoApp) (id : Int) : Except JsError TodoApp :=
  match app.taskList.find? (fun el => el.dataId == id) with
  | none => .error .typeError
  | some _ =>
    .ok { app with
          taskList := (mutateFirst (fun el => el.dataId == id)
            (fun el => { el with removing := true }) app.taskList)
          timeouts := app.timeouts ++ [Timeout.removeTask id] }

/-- The method `toggleTask`. -/
def toggleTask (app : TodoApp) (id : Int) : TodoApp :=
  match app.tasks.find? (fun task => task.id == id) with
  | some _ =>
    render (saveToLocalStorage
      { app with tasks := (mutateFirst (fun task => task.id == id)
          (fun task => { task with completed := !task.completed }) app.tasks) })
  | none => app

/-- The method `editTask` up to the registration of its listeners: the element is
looked up, its text is remembered and it is put in edit mode.  Without an element
of that `data-id` the call `taskElement.querySelector` is made on `null`. -/
def editTask (app : TodoApp) (id : Int) : Except JsError (TodoApp × EditSession) :=
  match app.taskList.find? (fun el => el.dataId == id) with
  | none => .error .typeError
  | some taskElement =>
    .ok ({ app with
           taskList := (mutateFirst (fun el => el.dataId == id)
             (fun el => { el with editMode := true, contentEditable := true })
             app.taskList) },
         { id := id, currentText := taskElement.textContent })

/-- The closure `saveEdit` of an edit session; `textContent` is the text of the
edited element when the closure runs.  The closure also takes the element out of
edit mode, which `render` makes moot by building the items anew. -/
def saveEdit (session : EditSession) (textContent : String) (app : TodoApp) : TodoApp :=
  let newText := jsTrim textContent
  let app1 :=
    if newText ≠ "" ∧ newText ≠ session.currentText then
      match app.tasks.find? (fun task => task.id == session.id) with
      | some _ =>
        saveToLocalStorage
          { app with tasks := (mutateFirst (fun task => task.id == session.id)
              (fun task => { task with text := newText }) app.tasks) }
      | none => app
    else app
  render app1

/-- The closure `cancelEdit` of an edit session. -/
def cancelEdit (session : EditSession) (app : TodoApp) : TodoApp :=
  { app with
    taskList := (mutateFirst (fun el => el.dataId == session.id)
      (fun el => { el with
                   textContent := session.currentText
                   editMode := false
                   contentEditable := false })
      app.taskList) }

/-- The method `setFilter`. -/
def setFilter (app : TodoApp) (filter : String) : TodoApp :=
  render { app with currentFilter := filter }

/-- The callback that `clearCompletedTasks` hands to `setTimeout`. -/
def clearCompletedTimeout (app : TodoApp) : TodoApp :=
  render (saveToLocalStorage
    { app with tasks := app.tasks.filter (fun task => !task.completed) })

/-- The method `clearCompletedTasks`: the elements matching
`.task-item.completed` are marked and the removal is scheduled. -/
def clearCompletedTasks (app : TodoApp) : TodoApp :=
  { app with
    taskList := (app.taskList.map
      (fun el => if el.className = "task-item completed" then { el with removing := true } else el))
    timeouts := app.timeouts ++ [Timeout.removeCompleted] }

/-- Running a scheduled callback. -/
def runTimeout : Timeout → TodoApp → TodoApp
  | .removeTask id, app => deleteTaskTimeout id app
  | .removeCompleted, app => clearCompletedTimeout app

end TodoApp

namespace TodoApp

/-! ## Events -/

/-- What can happen to a loaded page. -/
inductive Event
  | input (value : String)
  | addTask (now : String)
  | deleteTask (id : Int)
  | toggleTask (id : Int)
  | editTask (id : Int)
  | saveEdit (session : EditSession) (textContent : String)
  | cancelEdit (session : EditSession)
  | setFilter (filter : String)
  | clearCompletedTasks
  | timeout
  | reload
deriving DecidableEq, Repr

/-- The state after one event.  A handler that throws leaves the state as it was
when the exception was raised; `saveEdit` and `cancelEdit` stand for the
listeners of an edit session, which may run at any later time with whatever text
the element holds; `reload` builds a new controller from the stored slot (a slot
written by the controller is always read back; the branch of a constructor that
throws is there to make the function total). -/
def step (app : TodoApp) : Event → TodoApp
  | .input value => { app with taskInput := value }
  | .addTask now => addTask app now
  | .deleteTask id =>
    match deleteTask app id with
    | .ok app1 => app1
    | .error _ => app
  | .toggleTask id => toggleTask app id
  | .editTask id =>
    match editTask app id with
    | .ok (app1, _) => app1
    | .error _ => app
  | .saveEdit session textContent => saveEdit session textContent app
  | .cancelEdit session => cancelEdit session app
  | .setFilter filter => setFilter app filter
  | .clearCompletedTasks => clearCompletedTasks app
  | .timeout =>
    match app.timeouts with
    | [] => app
    | t :: rest => runTimeout t { app with timeouts := rest }
  | .reload =>
    match TodoApp.new app.localStorage with
    | .ok app1 => app1
    | .error _ => app

/-- The state after a sequence of events. -/
def run (app : TodoApp) (events : List Event) : TodoApp :=
  events.foldl step app

/-- The state after one event, with the arithmetic on the counter computed on
JavaScript numbers: `addTask` and the constructor are the only events that compute
on it. -/
def stepDouble (app : TodoApp) : Event → TodoApp
  | .addTask now => addTaskDouble app now
  | .reload =>
    match newDouble app.localStorage with
    | .ok app1 => app1
    | .error _ => app
  | e => step app e

/-- The state after a sequence of events, with the arithmetic on the counter
computed on JavaScript numbers. -/
def runDouble (app : TodoApp) (events : List Event) : TodoApp :=
  events.foldl stepDouble app

/-- A storage in which the slot `todoTasks` has never been written. -/
def emptyStorage : LocalStorage := { todoTasks := none, setItemCalls := 0 }

/-- The controller on first load, with nothing stored. -/
def fresh : TodoApp :=
  render
    { tasks := []
      currentFilter := "all"
      taskIdCounter := 1
      taskInput := ""
      taskList := []
      emptyStateDisplay := ""
      totalTasks := ""
      completedTasks := ""
      clearCompletedDisabled := false
      timeouts := []
      localStorage := emptyStorage }

end TodoApp

namespace TodoApp

/-! ## Notions used in the statements -/

/-- The identifiers of the tasks of a list, in list order. -/
def taskIds (l : List Task) : List Int := l.map (fun t => t.id)

/-- The identifiers that `addTask` hands out while the events run, in the order
in which they are handed out. -/
def issuedIds (app : TodoApp) : List Event → List Int
  | [] => []
  | .addTask now :: rest =>
    (if jsTrim app.taskInput = "" then [] else [app.taskIdCounter]) ++
      issuedIds (step app (.addTask now)) rest
  | e :: rest => issuedIds (step app e) rest

/-- The identifiers that `addTask` hands out while the events run, with the
arithmetic on the counter computed on JavaScript numbers. -/
def issuedIdsDouble (app : TodoApp) : List Event → List Int
  | [] => []
  | .addTask now :: rest =>
    (if jsTrim app.taskInput = "" then [] else [app.taskIdCounter]) ++
      issuedIdsDouble (stepDouble app (.addTask now)) rest
  | e :: rest => issuedIdsDouble (stepDouble app e) rest

/-- The operation AddTask on a raw text, with the arithmetic on the counter
computed on JavaScript numbers. -/
def addTaskWithDouble (app : TodoApp) (raw now : String) : TodoApp :=
  addTaskDouble { app with taskInput := raw } now

/-- The operation AddTask on a raw text: the text is typed in the text-entry
field and `addTask` runs. -/
def addTaskWith (app : TodoApp) (raw now : String) : TodoApp :=
  addTask { app with taskInput := raw } now

/-- The operation EditTask with a replacement text: `editTask` opens the session
on the item, the item then holds the text `newText`, and `saveEdit` runs. -/
def editTaskWith (app : TodoApp) (id : Int) (newText : String) : Except JsError TodoApp :=
  match editTask app id with
  | .ok (app1, session) => .ok (saveEdit session newText app1)
  | .error e => .error e

/-- The nodes of a task item up to the text of the task. -/
def itemNodesBefore (completed : Bool) : List Node :=
  textNodes "\n            " ++
  [Node.startTag "input"
    ([("type", "checkbox"), ("class", "task-checkbox")] ++
      (if completed then [("checked", "")] else []))] ++
  textNodes "\n            " ++
  [Node.startTag "span" [("class", "task-text")]]

/-- The nodes of a task item from the end of the text of the task on. -/
def itemNodesAfter : List Node :=
  [Node.endTag "span"] ++
  textNodes "\n            " ++
  [Node.startTag "div" [("class", "task-actions")]] ++
  textNodes "\n                " ++
  [Node.startTag "button" [("class", "action-btn edit-btn"), ("title", "Edit task")]] ++
  textNodes "\n                    " ++
  [Node.startTag "i" [("class", "fas fa-edit")], Node.endTag "i"] ++
  textNodes "\n                " ++
  [Node.endTag "button"] ++
  textNodes "\n                " ++
  [Node.startTag "button" [("class", "action-btn delete-btn"), ("title", "Delete task")]] ++
  textNodes "\n                    " ++
  [Node.startTag "i" [("class", "fas fa-trash")], Node.endTag "i"] ++
  textNodes "\n                " ++
  [Node.endTag "button"] ++
  textNodes "\n            " ++
  [Node.endTag "div"] ++
  textNodes "\n        "

/-- The rendered items are those that `render` builds for the tasks selected by
the filter: same identifiers and the texts that the page shows for them, in the
same order. -/
def Displayed (app : TodoApp) : Prop :=
  app.taskList.map (fun el => (el.dataId, el.textContent)) =
    (getFilteredTasks app).map (fun t => (t.id, displayedText t.text))

instance (app : TodoApp) : Decidable (Displayed app) := by
  unfold Displayed
  infer_instance

/-- The rendered items carry the identifiers of the tasks selected by the filter,
in the same order. -/
def ItemsOfFilter (app : TodoApp) : Prop :=
  app.taskList.map (fun el => el.dataId) = (getFilteredTasks app).map (fun t => t.id)

/-- The stored slot holds the task list: either the list was written by
`saveToLocalStorage`, or nothing was ever written and the list is empty. -/
def Synced (app : TodoApp) : Prop :=
  app.localStorage.todoTasks = some (Stored.tasks app.tasks) ∨
    (app.localStorage.todoTasks = none ∧ app.tasks = [])

/-- The invariant of the states reached from an empty storage: the identifiers
of the list are pairwise distinct and below the counter, and the stored slot
holds the list. -/
def WellFormed (app : TodoApp) : Prop :=
  (taskIds app.tasks).Nodup ∧ (∀ i ∈ taskIds app.tasks, i < app.taskIdCounter) ∧ Synced app

end TodoApp

namespace TodoApp

/-! ## What `render` and `saveToLocalStorage` leave alone -/

@[simp] theorem render_tasks (app : TodoApp) : (render app).tasks = app.tasks := rfl

@[simp] theorem render_taskIdCounter (app : TodoApp) :
    (render app).taskIdCounter = app.taskIdCounter := rfl

@[simp] theorem render_currentFilter (app : TodoApp) :
    (render app).currentFilter = app.currentFilter := rfl

@[simp] theorem render_localStorage (app : TodoApp) :
    (render app).localStorage = app.localStorage := rfl

@[simp] theorem render_timeouts (app : TodoApp) : (render app).timeouts = app.timeouts := rfl

@[simp] theorem render_taskInput (app : TodoApp) : (render app).taskInput = app.taskInput := rfl

@[simp] theorem render_taskList (app : TodoApp) :
    (render app).taskList = (getFilteredTasks app).map createTaskElement := rfl

@[simp] theorem getFilteredTasks_render (app : TodoApp) :
    getFilteredTasks (render app) = getFilteredTasks app := rfl

@[simp] theorem save_tasks (app : TodoApp) : (saveToLocalStorage app).tasks = app.tasks := rfl

@[simp] theorem save_taskIdCounter (app : TodoApp) :
    (saveToLocalStorage app).taskIdCounter = app.taskIdCounter := rfl

@[simp] theorem save_currentFilter (app : TodoApp) :
    (saveToLocalStorage app).currentFilter = app.currentFilter := rfl

@[simp] theorem save_timeouts (app : TodoApp) :
    (saveToLocalStorage app).timeouts = app.timeouts := rfl

@[simp] theorem save_todoTasks (app : TodoApp) :
    (saveToLocalStorage app).localStorage.todoTasks = some (Stored.tasks app.tasks) := rfl

@[simp] theorem save_setItemCalls (app : TodoApp) :
    (saveToLocalStorage app).localStorage.setItemCalls = app.localStorage.setItemCalls + 1 := rfl

/-! ## Facts about `mutateFirst` -/

theorem mutateFirst_of_none {α : Type} (p : α → Bool) (f : α → α) :
    ∀ l : List α, l.find? p = none → mutateFirst p f l = l
  | [], _ => rfl
  | x :: xs, h => by
    by_cases hx : p x
    · simp [List.find?, hx] at h
    · have h1 : xs.find? p = none := by simpa [List.find?, hx] using h
      simp [mutateFirst, hx, mutateFirst_of_none p f xs h1]

theorem mutateFirst_split {α : Type} (p : α → Bool) (f : α → α) :
    ∀ (l : List α) (x : α), l.find? p = some x →
      ∃ before after, l = before ++ x :: after ∧ (∀ y ∈ before, p y = false) ∧
        mutateFirst p f l = before ++ f x :: after
  | [], x, h => by simp at h
  | y :: ys, x, h => by
    by_cases hy : p y
    · have hxy : y = x := by simpa [List.find?, hy] using h
      subst hxy
      exact ⟨[], ys, rfl, by simp, by simp [mutateFirst, hy]⟩
    · have h1 : ys.find? p = some x := by simpa [List.find?, hy] using h
      obtain ⟨before, after, e1, e2, e3⟩ := mutateFirst_split p f ys x h1
      refine ⟨y :: before, after, by simp [e1], ?_, by simp [mutateFirst, hy, e3]⟩
      intro z hz
      rcases List.mem_cons.1 hz with rfl | hz
      · simpa using hy
      · exact e2 z hz

theorem mutateFirst_length {α : Type} (p : α → Bool) (f : α → α) :
    ∀ l : List α, (mutateFirst p f l).length = l.length
  | [] => rfl
  | x :: xs => by
    by_cases hx : p x
    · simp [mutateFirst, hx]
    · simp [mutateFirst, hx, mutateFirst_length p f xs]

theorem mutateFirst_map_eq {α β : Type} (p : α → Bool) (f : α → α) (g : α → β)
    (hg : ∀ x, g (f x) = g x) : ∀ l : List α, (mutateFirst p f l).map g = l.map g
  | [] => rfl
  | x :: xs => by
    by_cases hx : p x
    · simp [mutateFirst, hx, hg]
    · simp [mutateFirst, hx, mutateFirst_map_eq p f g hg xs]

theorem mutateFirst_twice {α : Type} (p : α → Bool) (f : α → α)
    (hp : ∀ x, p (f x) = p x) (hf : ∀ x, f (f x) = x) :
    ∀ l : List α, mutateFirst p f (mutateFirst p f l) = l
  | [] => rfl
  | x :: xs => by
    by_cases hx : p x
    · simp [mutateFirst, hx, hp, hf]
    · simp [mutateFirst, hx, mutateFirst_twice p f hp hf xs]

theorem find?_mutateFirst_isSome {α : Type} (p : α → Bool) (f : α → α)
    (hp : ∀ x, p (f x) = p x) :
    ∀ l : List α, ((mutateFirst p f l).find? p).isSome = (l.find? p).isSome
  | [] => rfl
  | x :: xs => by
    by_cases hx : p x
    · simp [mutateFirst, hx, hp, List.find?]
    · simp [mutateFirst, hx, List.find?, find?_mutateFirst_isSome p f hp xs]

theorem find?_id_none_iff (id : Int) (l : List Task) :
    l.find? (fun task => task.id == id) = none ↔ id ∉ l.map (fun t => t.id) := by
  simp only [List.find?_eq_none, List.mem_map, not_exists, not_and]
  constructor
  · intro h t ht e
    exact h t ht (by simpa using e)
  · intro h t ht e
    exact h t ht (by simpa using e)

end TodoApp

namespace TodoApp

/-! ## Clearing, filtering, toggling -/

/-- C4: the delayed removal of `clearCompletedTasks`, whenever it runs, leaves
exactly the tasks with `completed = false`: the result is a subsequence of the old
list (so the kept tasks are unmodified and in their old order), it holds a task as
often as the old list did when the task is not completed, and it holds no completed
task; the click itself only schedules that removal and leaves the list alone. -/
theorem clearCompleted_keeps_exactly_pending (app : TodoApp) :
    (clearCompletedTasks app).tasks = app.tasks ∧
    (clearCompletedTasks app).timeouts = app.timeouts ++ [Timeout.removeCompleted] ∧
    runTimeout Timeout.removeCompleted app = clearCompletedTimeout app ∧
    (clearCompletedTimeout app).tasks.Sublist app.tasks ∧
    (∀ t, t ∈ (clearCompletedTimeout app).tasks ↔ t ∈ app.tasks ∧ t.completed = false) ∧
    (∀ t, t.completed = false →
      (clearCompletedTimeout app).tasks.count t = app.tasks.count t) ∧
    (clearCompletedTimeout app).localStorage.todoTasks =
      some (Stored.tasks (clearCompletedTimeout app).tasks) := by
  refine ⟨rfl, rfl, rfl, ?_, ?_, ?_, rfl⟩
  · simp [clearCompletedTimeout]
  · intro t
    simp [clearCompletedTimeout, List.mem_filter]
  · intro t ht
    simp [clearCompletedTimeout, List.count_filter, ht]

/-- C5: after `setFilter "pending"` the projection used by `render` is the
subsequence of the tasks with `completed = false`, after `setFilter "completed"` the
subsequence of those with `completed = true`, after `setFilter "all"` the whole
list; the items rendered are those of the projection; `setFilter` never changes
the task list. -/
theorem setFilter_projection (app : TodoApp) :
    (getFilteredTasks (setFilter app "pending")).Sublist app.tasks ∧
    (∀ t, (getFilteredTasks (setFilter app "pending")).count t =
      if t.completed = false then app.tasks.count t else 0) ∧
    (getFilteredTasks (setFilter app "completed")).Sublist app.tasks ∧
    (∀ t, (getFilteredTasks (setFilter app "completed")).count t =
      if t.completed = true then app.tasks.count t else 0) ∧
    getFilteredTasks (setFilter app "all") = app.tasks ∧
    (∀ filter, (setFilter app filter).tasks = app.tasks ∧
      (setFilter app filter).localStorage = app.localStorage ∧
      (setFilter app filter).taskList =
        (getFilteredTasks (setFilter app filter)).map createTaskElement) := by
  refine ⟨?_, ?_, ?_, ?_, ?_, ?_⟩
  · simp [setFilter, getFilteredTasks]
  · intro t
    by_cases ht : t.completed = false
    · simp [setFilter, getFilteredTasks, List.count_filter, ht]
    · rw [if_neg ht]
      exact List.count_eq_zero.2 (by simp [setFilter, getFilteredTasks, List.mem_filter, ht])
  · simp [setFilter, getFilteredTasks]
  · intro t
    by_cases ht : t.completed = true
    · simp [setFilter, getFilteredTasks, List.count_filter, ht]
    · rw [if_neg ht]
      exact List.count_eq_zero.2 (by simp [setFilter, getFilteredTasks, List.mem_filter, ht])
  · simp [setFilter, getFilteredTasks]
  · intro filter
    exact ⟨rfl, rfl, rfl⟩

end TodoApp

namespace TodoApp

theorem toggleTask_tasks (app : TodoApp) (id : Int) :
    (toggleTask app id).tasks =
      mutateFirst (fun task => task.id == id)
        (fun task => { task with completed := !task.completed }) app.tasks := by
  unfold toggleTask
  cases h : app.tasks.find? (fun task => task.id == id) with
  | none => simp [mutateFirst_of_none _ _ _ h]
  | some t => simp

/-- C6: two successive calls of `toggleTask` with the same identifier give back
the task list as it was (same tasks, fields and order), for every list and every
identifier; one call on an identifier that a task carries negates the
`completed` flag of the first task with that identifier and changes nothing
else. -/
theorem toggleTask_twice_restores (app : TodoApp) (id : Int) :
    (toggleTask (toggleTask app id) id).tasks = app.tasks ∧
    (id ∈ taskIds app.tasks →
      ∃ before t after, app.tasks = before ++ t :: after ∧ t.id = id ∧
        (∀ u ∈ before, u.id ≠ id) ∧
        (toggleTask app id).tasks =
          before ++ { t with completed := !t.completed } :: after) := by
  constructor
  · rw [toggleTask_tasks, toggleTask_tasks]
    exact mutateFirst_twice (fun task : Task => task.id == id)
      (fun task => { task with completed := !task.completed })
      (fun x => rfl) (fun x => by cases x; simp) app.tasks
  · intro hid
    cases h : app.tasks.find? (fun task => task.id == id) with
    | none => exact absurd hid ((find?_id_none_iff id app.tasks).1 h)
    | some t =>
      obtain ⟨before, after, e1, e2, e3⟩ := mutateFirst_split (fun task => task.id == id)
        (fun task => { task with completed := !task.completed }) app.tasks t h
      refine ⟨before, t, after, e1, ?_, ?_, ?_⟩
      · simpa using List.find?_some h
      · intro u hu
        simpa using e2 u hu
      · rw [toggleTask_tasks, e3]

/-- An instance of C6 on the list of the scenario of the specification. -/
theorem toggleTask_twice_restores_witness :
    (1 : Int) ∈ taskIds
        (run fresh [.input "Buy milk", .addTask "t1", .input "Walk dog", .addTask "t2"]).tasks ∧
    ∃ before t after,
      (run fresh [.input "Buy milk", .addTask "t1", .input "Walk dog", .addTask "t2"]).tasks =
        before ++ t :: after ∧ t.id = 1 ∧ (∀ u ∈ before, u.id ≠ 1) ∧
      (toggleTask
        (run fresh [.input "Buy milk", .addTask "t1", .input "Walk dog", .addTask "t2"]) 1).tasks =
        before ++ { t with completed := !t.completed } :: after :=
  ⟨by decide,
   (toggleTask_twice_restores
      (run fresh [.input "Buy milk", .addTask "t1", .input "Walk dog", .addTask "t2"]) 1).2
      (by decide)⟩

end TodoApp

namespace TodoApp

/-! ## Escaping of the task text -/

theorem escapeChar_no_angle (c : Char) : '<' ∉ escapeChar c ∧ '>' ∉ escapeChar c := by
  unfold escapeChar
  split_ifs with h1 h2 h3 h4
  · decide
  · decide
  · decide
  · decide
  · constructor
    · simpa using fun h => h3 h.symm
    · simpa using fun h => h4 h.symm

theorem escapeChars_no_angle : ∀ l : List Char, '<' ∉ escapeChars l ∧ '>' ∉ escapeChars l
  | [] => by simp [escapeChars]
  | c :: rest => by
    have h1 := escapeChar_no_angle c
    have h2 := escapeChars_no_angle rest
    simp only [escapeChars, List.mem_append, not_or]
    exact ⟨⟨h1.1, h2.1⟩, ⟨h1.2, h2.2⟩⟩

theorem normalizeNewlines_text (c : Char) (b : Bool) (l : List Char) (h1 : c ≠ '\r')
    (h2 : c ≠ '\n') : normalizeNewlines b (c :: l) = c :: normalizeNewlines false l := by
  simp [normalizeNewlines, h1, h2]

theorem normalizeNewlines_escapeChars :
    ∀ (l : List Char) (b : Bool),
      normalizeNewlines b (escapeChars l) = escapeChars (normalizeNewlines b l)
  | [], b => rfl
  | c :: rest, b => by
    have ih := normalizeNewlines_escapeChars rest
    by_cases h1 : c = '&'
    · subst h1
      simp [escapeChars, escapeChar, normalizeNewlines, ih]
    · by_cases h2 : c = '\u00A0'
      · subst h2
        simp [escapeChars, escapeChar, normalizeNewlines, ih]
      · by_cases h3 : c = '<'
        · subst h3
          simp [escapeChars, escapeChar, normalizeNewlines, ih]
        · by_cases h4 : c = '>'
          · subst h4
            simp [escapeChars, escapeChar, normalizeNewlines, ih]
          · have he : escapeChar c = [c] := by simp [escapeChar, h1, h2, h3, h4]
            by_cases h5 : c = '\r'
            · subst h5
              simp [escapeChars, escapeChar, normalizeNewlines, ih]
            · by_cases h6 : c = '\n' ∧ b = true
              · obtain ⟨h6, h7⟩ := h6
                subst h6 h7
                simp [escapeChars, escapeChar, normalizeNewlines, ih]
              · simp [escapeChars, he, normalizeNewlines, h5, h6, ih, h1, h2, h3, h4]

theorem scan_append (l1 l2 : List Char) :
    ∀ s : ScanState, scan s (l1 ++ l2) =
      (scan s l1).bind fun r1 => (scan r1.1 l2).map fun r2 => (r2.1, r1.2 ++ r2.2) := by
  induction l1 with
  | nil =>
    intro s
    cases h : scan s l2 with
    | none => simp [scan, h]
    | some r => simp [scan, h]
  | cons c rest ih =>
    intro s
    cases h : scanStep s c with
    | none => simp [scan, h]
    | some r =>
      cases h1 : scan r.1 rest with
      | none => simp [scan, h, ih, h1]
      | some r1 =>
        cases h2 : scan r1.1 l2 with
        | none => simp [scan, h, ih, h1, h2]
        | some r2 => simp [scan, h, ih, h1, h2, List.append_assoc]

theorem scan_data_escapeChar (c : Char) :
    scan .data (escapeChar c) = some (.data, if c = '\x00' then [] else [.text c]) := by
  by_cases h1 : c = '&'
  · subst h1; rfl
  · by_cases h2 : c = '\u00A0'
    · subst h2; rfl
    · by_cases h3 : c = '<'
      · subst h3; rfl
      · by_cases h4 : c = '>'
        · subst h4; rfl
        · have he : escapeChar c = [c] := by simp [escapeChar, h1, h2, h3, h4]
          rw [he]
          by_cases h5 : c = '\x00'
          · subst h5; rfl
          · simp [scan, scanStep, h1, h3, h5]

theorem scan_data_escapeChars :
    ∀ l : List Char, scan .data (escapeChars l) =
      some (.data, (l.filter (fun c => c != '\x00')).map Node.text)
  | [] => rfl
  | c :: rest => by
    rw [escapeChars, scan_append, scan_data_escapeChar, Option.some_bind]
    simp only [scan_data_escapeChars rest, Option.map_some']
    by_cases h5 : c = '\x00'
    · subst h5
      simp
    · simp [h5]

theorem normalizeNewlines_append_left (l : List Char) :
    ∀ pre : List Char, '\r' ∉ pre →
      normalizeNewlines false (pre ++ l) = pre ++ normalizeNewlines false l
  | [], _ => rfl
  | c :: rest, h => by
    have h1 : c ≠ '\r' := fun e => h (e ▸ List.mem_cons_self _ _)
    have h2 : '\r' ∉ rest := fun e => h (List.mem_cons_of_mem _ e)
    simp [normalizeNewlines, h1, normalizeNewlines_append_left l rest h2]

theorem normalizeNewlines_append_right (post : List Char)
    (h : ∀ b, normalizeNewlines b post = post) :
    ∀ (l : List Char) (b : Bool),
      normalizeNewlines b (l ++ post) = normalizeNewlines b l ++ post
  | [], b => by simpa [normalizeNewlines] using h b
  | d :: rest, b => by
    have ih := normalizeNewlines_append_right post h rest
    by_cases h5 : d = '\r'
    · simp [normalizeNewlines, h5, ih]
    · by_cases h6 : d = '\n' ∧ b = true
      · simp [normalizeNewlines, h5, h6, ih]
      · simp [normalizeNewlines, h5, h6, ih]

theorem textUntilEndTag_text (name : String) (rest : List Node) :
    ∀ l : List Char, textUntilEndTag (l.map Node.text ++ Node.endTag name :: rest) = some l
  | [] => rfl
  | c :: l => by
    simp [textUntilEndTag, textUntilEndTag_text name rest l]


theorem scan_markupBefore (completed : Bool) :
    scan .data (markupBefore completed).data = some (.data, itemNodesBefore completed) := by
  cases completed <;> rfl

theorem scan_markupAfter : scan .data markupAfter.data = some (.data, itemNodesAfter) := by
  rfl

theorem markupBefore_no_cr (completed : Bool) : '\r' ∉ (markupBefore completed).data := by
  cases completed <;> decide

theorem normalize_markupAfter (b : Bool) : normalizeNewlines b markupAfter.data = markupAfter.data := by
  cases b <;> rfl


theorem normalizeNewlines_of_no_cr (l : List Char) (h : '\r' ∉ l) :
    normalizeNewlines false l = l := by
  have := normalizeNewlines_append_left [] l h
  simpa [normalizeNewlines] using this

theorem displayedChars_of_clean (l : List Char) (h1 : '\r' ∉ l) (h2 : '\x00' ∉ l) :
    displayedChars l = l := by
  unfold displayedChars
  rw [normalizeNewlines_of_no_cr l h1, List.filter_eq_self]
  intro c hc
  have : c ≠ '\x00' := fun e => h2 (e ▸ hc)
  simpa using this

theorem taskMarkup_data (task : Task) :
    (taskMarkup task).data =
      (markupBefore task.completed).data ++ (escapeChars task.text.data ++ markupAfter.data) := by
  simp [taskMarkup, escapeHtml, String.data_append]

theorem parseMarkup_taskMarkup (task : Task) :
    parseMarkup (taskMarkup task) =
      some (itemNodesBefore task.completed ++
        (displayedChars task.text.data).map Node.text ++ itemNodesAfter) := by
  unfold parseMarkup
  rw [taskMarkup_data,
    normalizeNewlines_append_left _ _ (markupBefore_no_cr task.completed),
    normalizeNewlines_append_right _ normalize_markupAfter,
    normalizeNewlines_escapeChars, scan_append, scan_markupBefore, Option.some_bind,
    scan_append, scan_data_escapeChars, Option.some_bind, scan_markupAfter]
  simp [displayedChars]

theorem taskTextContent_itemNodes (completed : Bool) (l : List Char) :
    taskTextContent (itemNodesBefore completed ++ l.map Node.text ++ itemNodesAfter) =
      some l := by
  have h : taskTextContent (itemNodesBefore completed ++ (l.map Node.text ++ itemNodesAfter)) =
      textUntilEndTag (l.map Node.text ++ itemNodesAfter) := by
    cases completed <;> rfl
  rw [List.append_assoc, h]
  exact textUntilEndTag_text "span" _ l

theorem createTaskElement_textContent (task : Task) :
    (createTaskElement task).textContent = displayedText task.text := by
  show taskTextOfMarkup (taskMarkup task) = displayedText task.text
  unfold taskTextOfMarkup
  rw [parseMarkup_taskMarkup]
  simp only [taskTextContent_itemNodes]
  rfl

end TodoApp

namespace TodoApp

/-- C10: for every task, the parser turns the markup that `createTaskElement`
builds into the fixed tags of the template with, between the start and the end tag
of the `task-text` span, one text node per character of the task text as shown
(newlines normalised, NUL dropped; the task text itself when it has no CR and no
NUL): the text of the task never becomes a tag or an attribute.  The escaped text
holds no `<` and no `>`, the text of the rendered item is the text as shown, and
every item that `render` produces is built by `createTaskElement` from a task of
the list. -/
theorem createTaskElement_escapes_text :
    (∀ task : Task,
      (createTaskElement task).innerHTML =
        markupBefore task.completed ++ escapeHtml task.text ++ markupAfter ∧
      parseMarkup (createTaskElement task).innerHTML =
        some (itemNodesBefore task.completed ++
          (displayedText task.text).data.map Node.text ++ itemNodesAfter) ∧
      (createTaskElement task).textContent = displayedText task.text) ∧
    (∀ text : String, '<' ∉ (escapeHtml text).data ∧ '>' ∉ (escapeHtml text).data) ∧
    (∀ text : String, '\r' ∉ text.data → '\x00' ∉ text.data → displayedText text = text) ∧
    (∀ app : TodoApp, ∀ el ∈ (render app).taskList,
      ∃ task ∈ app.tasks, el = createTaskElement task) ∧
    escapeHtml "<script>alert(1)</script>" = "&lt;script&gt;alert(1)&lt;/script&gt;" ∧
    displayedText "<script>alert(1)</script>" = "<script>alert(1)</script>" ∧
    displayedText "a\r\nb\rc\x00d" = "a\nb\ncd" := by
  refine ⟨fun task => ⟨rfl, parseMarkup_taskMarkup task, createTaskElement_textContent task⟩,
    ?_, ?_, ?_, by decide, by decide, by decide⟩
  · intro text
    exact ⟨(escapeChars_no_angle text.data).1, (escapeChars_no_angle text.data).2⟩
  · intro text h1 h2
    show (⟨displayedChars text.data⟩ : String) = text
    rw [displayedChars_of_clean text.data h1 h2]
  · intro app el hel
    rw [render_taskList, List.mem_map] at hel
    obtain ⟨task, ht, rfl⟩ := hel
    refine ⟨task, ?_, rfl⟩
    unfold getFilteredTasks at ht
    split_ifs at ht
    · exact (List.mem_filter.1 ht).1
    · exact (List.mem_filter.1 ht).1
    · exact ht

end TodoApp

namespace TodoApp

/-! ## Loading the stored list -/

/-- C7, refuted: with a stored text that is not JSON the constructor stops with
the `SyntaxError` of `JSON.parse`, so no state is produced. -/
theorem new_malformed_throws :
    TodoApp.new { todoTasks := some (Stored.malformed "todo: buy milk"), setItemCalls := 0 } =
      .error JsError.syntaxError ∧
    ¬ ∃ app : TodoApp,
      TodoApp.new { todoTasks := some (Stored.malformed "todo: buy milk"), setItemCalls := 0 } =
        .ok app ∧
      app.tasks = [] ∧ app.taskIdCounter = 1 ∧ app.currentFilter = "all" := by
  constructor
  · rfl
  · rintro ⟨app, h, -⟩
    cases h

/-- C7, amended: with no stored text the constructor raises no error and gives the
empty state (no task, counter 1, filter `all`, nothing rendered, storage left as it
was); with a stored text that is not JSON it stops with `SyntaxError`. -/
theorem new_absent_gives_empty_state (calls : Nat) :
    (∃ app : TodoApp,
      TodoApp.new { todoTasks := none, setItemCalls := calls } = .ok app ∧
      app.tasks = [] ∧ app.taskIdCounter = 1 ∧ app.currentFilter = "all" ∧
      app.taskList = [] ∧ app.timeouts = [] ∧
      app.localStorage = { todoTasks := none, setItemCalls := calls }) ∧
    (∀ text : String,
      TodoApp.new { todoTasks := some (Stored.malformed text), setItemCalls := calls } =
        .error JsError.syntaxError) := by
  constructor
  · exact ⟨_, rfl, rfl, rfl, rfl, rfl, rfl, rfl⟩
  · intro text
    rfl

/-! ## Identifiers that no task carries -/

theorem deleteTaskTimeout_tasks (id : Int) (app : TodoApp) :
    (deleteTaskTimeout id app).tasks = app.tasks.filter (fun task => task.id != id) := rfl

theorem deleteTask_ok_fields (app app1 : TodoApp) (id : Int) (h : deleteTask app id = .ok app1) :
    app1.tasks = app.tasks ∧ app1.taskIdCounter = app.taskIdCounter ∧
    app1.localStorage = app.localStorage ∧ app1.currentFilter = app.currentFilter ∧
    app1.timeouts = app.timeouts ++ [Timeout.removeTask id] := by
  unfold deleteTask at h
  split at h
  · cases h
  · injection h with h
    subst h
    exact ⟨rfl, rfl, rfl, rfl, rfl⟩

theorem editTask_ok_fields (app app1 : TodoApp) (session : EditSession) (id : Int)
    (h : editTask app id = .ok (app1, session)) :
    app1.tasks = app.tasks ∧ app1.taskIdCounter = app.taskIdCounter ∧
    app1.localStorage = app.localStorage ∧ app1.currentFilter = app.currentFilter ∧
    app1.timeouts = app.timeouts ∧ session.id = id := by
  unfold editTask at h
  split at h
  · cases h
  · injection h with h
    injection h with h1 h2
    subst h1 h2
    exact ⟨rfl, rfl, rfl, rfl, rfl, rfl⟩

theorem step_deleteTask_fields (app : TodoApp) (id : Int) :
    (step app (.deleteTask id)).tasks = app.tasks ∧
    (step app (.deleteTask id)).taskIdCounter = app.taskIdCounter ∧
    (step app (.deleteTask id)).localStorage = app.localStorage := by
  simp only [step]
  cases h : deleteTask app id with
  | error e => exact ⟨rfl, rfl, rfl⟩
  | ok app1 =>
    have := deleteTask_ok_fields app app1 id h
    exact ⟨this.1, this.2.1, this.2.2.1⟩

theorem step_editTask_fields (app : TodoApp) (id : Int) :
    (step app (.editTask id)).tasks = app.tasks ∧
    (step app (.editTask id)).taskIdCounter = app.taskIdCounter ∧
    (step app (.editTask id)).localStorage = app.localStorage := by
  simp only [step]
  cases h : editTask app id with
  | error e => exact ⟨rfl, rfl, rfl⟩
  | ok r =>
    obtain ⟨app1, session⟩ := r
    have := editTask_ok_fields app app1 session id h
    exact ⟨this.1, this.2.1, this.2.2.1⟩

theorem saveEdit_of_none (session : EditSession) (textContent : String) (app : TodoApp)
    (h : app.tasks.find? (fun task => task.id == session.id) = none) :
    saveEdit session textContent app = render app := by
  unfold saveEdit
  simp only [h]
  split_ifs <;> rfl

theorem filter_ne_of_not_mem (id : Int) (l : List Task) (h : id ∉ taskIds l) :
    l.filter (fun task => task.id != id) = l := by
  rw [List.filter_eq_self]
  intro t ht
  have : t.id ≠ id := fun e => h (List.mem_map.2 ⟨t, ht, e⟩)
  simpa using this

/-- C8, refuted: with one task of identifier 1 loaded and rendered, the handlers
`deleteTask` and `editTask` called with the identifier 7, which no task carries,
stop with a `TypeError`. -/
theorem absent_id_handlers_throw :
    (7 : Int) ∉ taskIds (run fresh [.input "Buy milk", .addTask "t1"]).tasks ∧
    deleteTask (run fresh [.input "Buy milk", .addTask "t1"]) 7 = .error JsError.typeError ∧
    editTask (run fresh [.input "Buy milk", .addTask "t1"]) 7 = .error JsError.typeError :=
  ⟨by decide, rfl, rfl⟩

/-- C8, amended: for an identifier that no task carries, `toggleTask` completes
and changes nothing at all; the handlers `deleteTask` and `editTask`, whether they
complete or stop, leave the task list as it is; the delayed removal of `deleteTask`
and the closure `saveEdit` of an edit session on that identifier complete and
leave the task list as it is, `saveEdit` without writing to storage. -/
theorem absent_id_leaves_tasks (app : TodoApp) (id : Int) (h : id ∉ taskIds app.tasks) :
    toggleTask app id = app ∧
    (step app (.deleteTask id)).tasks = app.tasks ∧
    (deleteTaskTimeout id app).tasks = app.tasks ∧
    (step app (.editTask id)).tasks = app.tasks ∧
    (∀ currentText textContent : String,
      (saveEdit { id := id, currentText := currentText } textContent app).tasks = app.tasks ∧
      (saveEdit { id := id, currentText := currentText } textContent app).localStorage =
        app.localStorage) := by
  have hnone : app.tasks.find? (fun task => task.id == id) = none :=
    (find?_id_none_iff id app.tasks).2 h
  refine ⟨?_, (step_deleteTask_fields app id).1, ?_, (step_editTask_fields app id).1, ?_⟩
  · unfold toggleTask
    rw [hnone]
  · rw [deleteTaskTimeout_tasks, filter_ne_of_not_mem id app.tasks h]
  · intro currentText textContent
    rw [saveEdit_of_none _ _ _ hnone]
    exact ⟨rfl, rfl⟩

/-- An instance of the amended C8: identifier 7 with one task of identifier 1. -/
theorem absent_id_leaves_tasks_witness :
    (7 : Int) ∉ taskIds (run fresh [.input "Buy milk", .addTask "t1"]).tasks ∧
    toggleTask (run fresh [.input "Buy milk", .addTask "t1"]) 7 =
      run fresh [.input "Buy milk", .addTask "t1"] :=
  ⟨by decide,
   (absent_id_leaves_tasks (run fresh [.input "Buy milk", .addTask "t1"]) 7 (by decide)).1⟩

end TodoApp

namespace TodoApp

/-! ## The effect of each event on the list, the counter and the storage -/

theorem addTask_of_empty (app : TodoApp) (now : String) (h : jsTrim app.taskInput = "") :
    addTask app now = app := by
  unfold addTask
  simp [h]

theorem addTask_of_nonempty (app : TodoApp) (now : String) (h : jsTrim app.taskInput ≠ "") :
    (addTask app now).tasks =
      { id := app.taskIdCounter, text := jsTrim app.taskInput, completed := false,
        createdAt := now } :: app.tasks ∧
    (addTask app now).taskIdCounter = app.taskIdCounter + 1 ∧
    (addTask app now).localStorage =
      { todoTasks := some (Stored.tasks (addTask app now).tasks)
        setItemCalls := app.localStorage.setItemCalls + 1 } := by
  unfold addTask
  simp only [h, if_false]
  exact ⟨rfl, rfl, rfl⟩

theorem taskIds_mutateFirst (p : Task → Bool) (f : Task → Task) (hf : ∀ t, (f t).id = t.id)
    (l : List Task) : taskIds (mutateFirst p f l) = taskIds l :=
  mutateFirst_map_eq p f (fun t => t.id) hf l

theorem toggleTask_fields (app : TodoApp) (id : Int) :
    taskIds (toggleTask app id).tasks = taskIds app.tasks ∧
    (toggleTask app id).taskIdCounter = app.taskIdCounter ∧
    (Synced app → Synced (toggleTask app id)) := by
  refine ⟨?_, ?_, ?_⟩
  · rw [toggleTask_tasks]
    apply taskIds_mutateFirst
    intro t
    rfl
  · unfold toggleTask
    split <;> rfl
  · intro hs
    unfold toggleTask
    split
    · exact Or.inl rfl
    · exact hs

theorem saveEdit_fields (session : EditSession) (textContent : String) (app : TodoApp) :
    taskIds (saveEdit session textContent app).tasks = taskIds app.tasks ∧
    (saveEdit session textContent app).taskIdCounter = app.taskIdCounter ∧
    (Synced app → Synced (saveEdit session textContent app)) := by
  unfold saveEdit
  simp only
  split_ifs with hc
  · cases hfind : app.tasks.find? (fun task => task.id == session.id) with
    | none => exact ⟨rfl, rfl, fun hs => hs⟩
    | some t =>
      refine ⟨?_, rfl, fun _ => Or.inl rfl⟩
      show taskIds (mutateFirst (fun task => task.id == session.id)
        (fun task => { task with text := jsTrim textContent }) app.tasks) = taskIds app.tasks
      apply taskIds_mutateFirst
      intro t
      rfl
  · exact ⟨rfl, rfl, fun hs => hs⟩

theorem taskIds_filter_sublist (p : Task → Bool) (l : List Task) :
    (taskIds (l.filter p)).Sublist (taskIds l) :=
  List.Sublist.map _ (List.filter_sublist l)

theorem runTimeout_fields (t : Timeout) (app : TodoApp) :
    (taskIds (runTimeout t app).tasks).Sublist (taskIds app.tasks) ∧
    (runTimeout t app).taskIdCounter = app.taskIdCounter ∧
    Synced (runTimeout t app) := by
  cases t with
  | removeTask id => exact ⟨taskIds_filter_sublist _ _, rfl, Or.inl rfl⟩
  | removeCompleted => exact ⟨taskIds_filter_sublist _ _, rfl, Or.inl rfl⟩

/-- Every event other than a reload either is an `addTask` on a non-empty trimmed
text, which puts a new task with the counter as identifier in front and increments
the counter, or keeps the counter and keeps or thins out the identifiers. -/
theorem step_shape (app : TodoApp) (e : Event) (he : e ≠ Event.reload) :
    (∃ now, e = Event.addTask now ∧ jsTrim app.taskInput ≠ "" ∧
      (step app e).tasks =
        { id := app.taskIdCounter, text := jsTrim app.taskInput, completed := false,
          createdAt := now } :: app.tasks ∧
      (step app e).taskIdCounter = app.taskIdCounter + 1 ∧
      Synced (step app e)) ∨
    ((∀ now, e = Event.addTask now → jsTrim app.taskInput = "") ∧
      (taskIds (step app e).tasks).Sublist (taskIds app.tasks) ∧
      (step app e).taskIdCounter = app.taskIdCounter ∧
      (Synced app → Synced (step app e))) := by
  cases e with
  | input value =>
    exact Or.inr ⟨(fun _ h => by cases h), List.Sublist.refl _, rfl, fun hs => hs⟩
  | addTask now =>
    by_cases h : jsTrim app.taskInput = ""
    · refine Or.inr ⟨fun _ _ => h, ?_, ?_, ?_⟩
      · simp [step, addTask_of_empty app now h]
      · simp [step, addTask_of_empty app now h]
      · simp [step, addTask_of_empty app now h]
    · have := addTask_of_nonempty app now h
      refine Or.inl ⟨now, rfl, h, this.1, this.2.1, Or.inl ?_⟩
      simp only [step]
      rw [this.2.2]
  | deleteTask id =>
    have := step_deleteTask_fields app id
    refine Or.inr ⟨(fun _ h => by cases h), by rw [this.1], this.2.1, ?_⟩
    intro hs
    unfold Synced
    rw [this.1, this.2.2]
    exact hs
  | toggleTask id =>
    have := toggleTask_fields app id
    refine Or.inr ⟨(fun _ h => by cases h), ?_, this.2.1, this.2.2⟩
    simp only [step]
    rw [this.1]
  | editTask id =>
    have := step_editTask_fields app id
    refine Or.inr ⟨(fun _ h => by cases h), by rw [this.1], this.2.1, ?_⟩
    intro hs
    unfold Synced
    rw [this.1, this.2.2]
    exact hs
  | saveEdit session textContent =>
    have := saveEdit_fields session textContent app
    refine Or.inr ⟨(fun _ h => by cases h), ?_, this.2.1, this.2.2⟩
    simp only [step]
    rw [this.1]
  | cancelEdit session =>
    exact Or.inr ⟨(fun _ h => by cases h), List.Sublist.refl _, rfl, fun hs => hs⟩
  | setFilter filter =>
    exact Or.inr ⟨(fun _ h => by cases h), List.Sublist.refl _, rfl, fun hs => hs⟩
  | clearCompletedTasks =>
    exact Or.inr ⟨(fun _ h => by cases h), List.Sublist.refl _, rfl, fun hs => hs⟩
  | timeout =>
    refine Or.inr (And.intro (fun _ h => by cases h) ?_)
    simp only [step]
    cases htq : app.timeouts with
    | nil => exact ⟨List.Sublist.refl _, rfl, fun hs => hs⟩
    | cons t rest =>
      have := runTimeout_fields t { app with timeouts := rest }
      exact ⟨this.1, this.2.1, fun _ => this.2.2⟩
  | reload => exact absurd rfl he

end TodoApp

namespace TodoApp

/-! ## The counter computed on load -/

theorem le_foldl_max (l : List Int) : ∀ a : Int, a ≤ l.foldl max a ∧ ∀ i ∈ l, i ≤ l.foldl max a := by
  induction l with
  | nil => intro a; simp
  | cons b rest ih =>
    intro a
    obtain ⟨h1, h2⟩ := ih (max a b)
    refine ⟨le_trans (le_max_left a b) h1, ?_⟩
    intro i hi
    rcases List.mem_cons.1 hi with rfl | hi
    · exact le_trans (le_max_right a i) h1
    · exact h2 i hi

theorem lt_nextId (l : List Int) : ∀ i ∈ l, i < nextId l := by
  cases l with
  | nil => intro i hi; cases hi
  | cons a rest =>
    intro i hi
    have h := le_foldl_max rest a
    show i < rest.foldl max a + 1
    rcases List.mem_cons.1 hi with rfl | hi
    · exact Int.lt_add_one_iff.2 h.1
    · exact Int.lt_add_one_iff.2 (h.2 i hi)

theorem new_tasks_ok (l : List Task) (calls : Nat) :
    ∃ app : TodoApp, TodoApp.new { todoTasks := some (Stored.tasks l), setItemCalls := calls } = .ok app ∧
      app.tasks = l ∧ app.taskIdCounter = nextId (taskIds l) ∧
      app.localStorage = { todoTasks := some (Stored.tasks l), setItemCalls := calls } :=
  ⟨_, rfl, rfl, rfl, rfl⟩

/-- A reload of a page whose slot holds the list keeps the list and the storage
and sets the counter from the list. -/
theorem step_reload (app : TodoApp) (hs : Synced app) :
    (step app Event.reload).tasks = app.tasks ∧
    (step app Event.reload).taskIdCounter = nextId (taskIds app.tasks) ∧
    (step app Event.reload).localStorage = app.localStorage := by
  rcases hs with h | ⟨h1, h2⟩
  · simp only [step, TodoApp.new, h, jsonParseItem]
    exact ⟨rfl, rfl, rfl⟩
  · simp only [step, TodoApp.new, h1, jsonParseItem]
    rw [h2]
    exact ⟨rfl, rfl, rfl⟩

theorem step_wellFormed (app : TodoApp) (e : Event) (h : WellFormed app) :
    WellFormed (step app e) := by
  obtain ⟨hnd, hlt, hs⟩ := h
  by_cases he : e = Event.reload
  · subst he
    obtain ⟨h1, h2, h3⟩ := step_reload app hs
    refine ⟨by rw [h1]; exact hnd, ?_, ?_⟩
    · rw [h1, h2]
      exact lt_nextId _
    · unfold Synced
      rw [h1, h3]
      exact hs
  · rcases step_shape app e he with ⟨now, -, -, h1, h2, h3⟩ | ⟨-, h1, h2, h3⟩
    · refine ⟨?_, ?_, h3⟩
      · rw [h1]
        show (app.taskIdCounter :: taskIds app.tasks).Nodup
        refine List.nodup_cons.2 ⟨fun hmem => lt_irrefl _ (hlt _ hmem), hnd⟩
      · rw [h1, h2]
        intro i hi
        rcases List.mem_cons.1 hi with rfl | hi
        · exact Int.lt_add_one_iff.2 (le_refl _)
        · exact lt_trans (hlt i hi) (Int.lt_add_one_iff.2 (le_refl _))
    · refine ⟨hnd.sublist h1, ?_, h3 hs⟩
      rw [h2]
      intro i hi
      exact hlt i (h1.subset hi)

theorem run_wellFormed (events : List Event) :
    ∀ app : TodoApp, WellFormed app → WellFormed (run app events) := by
  induction events with
  | nil => intro app h; exact h
  | cons e rest ih =>
    intro app h
    exact ih (step app e) (step_wellFormed app e h)

theorem fresh_wellFormed : WellFormed fresh :=
  ⟨List.nodup_nil, (fun i hi => by cases hi), Or.inr ⟨rfl, rfl⟩⟩

end TodoApp

namespace TodoApp

/-! ## Deleting a task -/

theorem filter_ne_split (id : Int) :
    ∀ l : List Task, (taskIds l).Nodup → id ∈ taskIds l →
      ∃ before t after, l = before ++ t :: after ∧ t.id = id ∧
        l.filter (fun task => task.id != id) = before ++ after
  | [], _, h => by cases h
  | x :: xs, hnd, hmem => by
    have hnd' : x.id ∉ taskIds xs ∧ (taskIds xs).Nodup := List.nodup_cons.1 hnd
    by_cases hx : x.id = id
    · have hnot : id ∉ taskIds xs := by
        rw [← hx]
        exact hnd'.1
      refine ⟨[], x, xs, rfl, hx, ?_⟩
      simp [List.filter, hx, filter_ne_of_not_mem id xs hnot]
    · have hmem' : id ∈ taskIds xs := by
        rcases List.mem_cons.1 hmem with h | h
        · exact absurd h.symm hx
        · exact h
      obtain ⟨before, t, after, e1, e2, e3⟩ := filter_ne_split id xs hnd'.2 hmem'
      refine ⟨x :: before, t, after, by simp [e1], e2, ?_⟩
      rw [List.filter_cons, e3]
      simp [hx]

theorem itemsOfFilter_render (app : TodoApp) : ItemsOfFilter (render app) := by
  unfold ItemsOfFilter
  rw [render_taskList, getFilteredTasks_render, List.map_map]
  rfl

theorem itemsOfFilter_of_eq (app app1 : TodoApp)
    (h1 : app1.taskList.map (fun el => el.dataId) = app.taskList.map (fun el => el.dataId))
    (h2 : app1.tasks = app.tasks) (h3 : app1.currentFilter = app.currentFilter)
    (h : ItemsOfFilter app) : ItemsOfFilter app1 := by
  unfold ItemsOfFilter getFilteredTasks at h ⊢
  rw [h1, h2, h3]
  exact h

theorem deleteTask_ok_dataIds (app app1 : TodoApp) (id : Int)
    (h : deleteTask app id = .ok app1) :
    app1.taskList.map (fun el => el.dataId) = app.taskList.map (fun el => el.dataId) := by
  unfold deleteTask at h
  split at h
  · cases h
  · injection h with h
    subst h
    apply mutateFirst_map_eq
    intro el
    rfl

theorem editTask_ok_dataIds (app app1 : TodoApp) (session : EditSession) (id : Int)
    (h : editTask app id = .ok (app1, session)) :
    app1.taskList.map (fun el => el.dataId) = app.taskList.map (fun el => el.dataId) := by
  unfold editTask at h
  split at h
  · cases h
  · injection h with h
    injection h with h1 h2
    subst h1
    apply mutateFirst_map_eq
    intro el
    rfl

theorem step_itemsOfFilter (app : TodoApp) (e : Event) (h : ItemsOfFilter app) :
    ItemsOfFilter (step app e) := by
  cases e with
  | input value => exact h
  | addTask now =>
    by_cases he : jsTrim app.taskInput = ""
    · simp only [step, addTask_of_empty app now he]
      exact h
    · simp only [step, addTask, he, if_false]
      exact itemsOfFilter_render _
  | deleteTask id =>
    simp only [step]
    cases hdel : deleteTask app id with
    | error e => exact h
    | ok app1 =>
      have hf := deleteTask_ok_fields app app1 id hdel
      exact itemsOfFilter_of_eq app app1 (deleteTask_ok_dataIds app app1 id hdel)
        hf.1 hf.2.2.2.1 h
  | toggleTask id =>
    simp only [step, toggleTask]
    split
    · exact itemsOfFilter_render _
    · exact h
  | editTask id =>
    simp only [step]
    cases hed : editTask app id with
    | error e => exact h
    | ok r =>
      obtain ⟨app1, session⟩ := r
      have hf := editTask_ok_fields app app1 session id hed
      exact itemsOfFilter_of_eq app app1 (editTask_ok_dataIds app app1 session id hed)
        hf.1 hf.2.2.2.1 h
  | saveEdit session textContent => exact itemsOfFilter_render _
  | cancelEdit session =>
    refine itemsOfFilter_of_eq app _ ?_ rfl rfl h
    show (mutateFirst _ _ app.taskList).map (fun el => el.dataId) = _
    apply mutateFirst_map_eq
    intro el
    rfl
  | setFilter filter => exact itemsOfFilter_render _
  | clearCompletedTasks =>
    refine itemsOfFilter_of_eq app _ ?_ rfl rfl h
    show (app.taskList.map (fun el : TaskElement =>
      if el.className = "task-item completed" then { el with removing := true } else el)).map
        (fun el => el.dataId) = _
    rw [List.map_map]
    apply List.map_congr_left
    intro el _
    show (if el.className = "task-item completed" then { el with removing := true } else el).dataId
      = el.dataId
    split_ifs <;> rfl
  | timeout =>
    simp only [step]
    split
    · exact h
    · rename_i t rest _
      cases t with
      | removeTask id => exact itemsOfFilter_render _
      | removeCompleted => exact itemsOfFilter_render _
  | reload =>
    simp only [step]
    cases hnew : TodoApp.new app.localStorage with
    | error e => exact h
    | ok app1 =>
      unfold TodoApp.new at hnew
      split at hnew
      · cases hnew
      · injection hnew with hnew
        subst hnew
        exact itemsOfFilter_render _

theorem run_itemsOfFilter (events : List Event) :
    ∀ app : TodoApp, ItemsOfFilter app → ItemsOfFilter (run app events) := by
  induction events with
  | nil => intro app h; exact h
  | cons e rest ih =>
    intro app h
    exact ih (step app e) (step_itemsOfFilter app e h)

theorem find?_isSome_of_mem_map (id : Int) :
    ∀ els : List TaskElement, id ∈ els.map (fun el => el.dataId) →
      ∃ el, els.find? (fun el => el.dataId == id) = some el
  | [], h => by cases h
  | x :: xs, h => by
    by_cases hx : x.dataId = id
    · exact ⟨x, by simp [List.find?, hx]⟩
    · have hb : (x.dataId == id) = false := by simpa using hx
      have h1 : id ∈ xs.map (fun el => el.dataId) := by
        rcases List.mem_cons.1 h with h | h
        · exact absurd h.symm hx
        · exact h
      obtain ⟨el, hel⟩ := find?_isSome_of_mem_map id xs h1
      exact ⟨el, by simpa [List.find?, hb] using hel⟩

/-- C3, refuted: one task is added and its delete button is clicked twice before
the delay has passed.  The task is in the list at both calls and both calls
complete; the removal of the first call empties the list, the removal of the
second call takes nothing out. -/
theorem deleteTask_second_removal_removes_nothing :
    (1 : Int) ∈ taskIds (run fresh [.input "a", .addTask "t1", .deleteTask 1]).tasks ∧
    (∃ app1, deleteTask (run fresh [.input "a", .addTask "t1", .deleteTask 1]) 1 = .ok app1 ∧
      app1.timeouts = [Timeout.removeTask 1, Timeout.removeTask 1]) ∧
    (run fresh [.input "a", .addTask "t1", .deleteTask 1, .deleteTask 1, .timeout]).tasks = [] ∧
    (run fresh [.input "a", .addTask "t1", .deleteTask 1, .deleteTask 1, .timeout]).timeouts =
      [Timeout.removeTask 1] ∧
    (run fresh
      [.input "a", .addTask "t1", .deleteTask 1, .deleteTask 1, .timeout, .timeout]).tasks = [] :=
  ⟨by decide, ⟨_, rfl, rfl⟩, by decide, by decide, by decide⟩

/-- C3, amended: in every state reached from an empty storage by any sequence of
events (reloads included), for every identifier carried by a task of the list: if
the task is shown under the current filter, `deleteTask` completes, leaves the list
alone and schedules the removal, which the event `timeout` runs when it is at the
front of the queue; the removal, run while the task is in the list, makes the list
one shorter, takes out the task with that identifier and leaves the tasks before
and after it as they were, in their order; run once more, when the task is gone,
the removal changes nothing. -/
theorem deleteTask_removes_exactly_one (events : List Event) (id : Int)
    (h : id ∈ taskIds (run fresh events).tasks) :
    (id ∈ taskIds (getFilteredTasks (run fresh events)) →
      ∃ app1, deleteTask (run fresh events) id = .ok app1 ∧
        app1.tasks = (run fresh events).tasks ∧
        app1.timeouts = (run fresh events).timeouts ++ [Timeout.removeTask id]) ∧
    (∀ rest, (run fresh events).timeouts = Timeout.removeTask id :: rest →
      (step (run fresh events) Event.timeout).tasks =
        (deleteTaskTimeout id (run fresh events)).tasks) ∧
    (deleteTaskTimeout id (run fresh events)).tasks.length + 1 =
      (run fresh events).tasks.length ∧
    (∀ t ∈ (deleteTaskTimeout id (run fresh events)).tasks, t.id ≠ id) ∧
    (∃ before t after, (run fresh events).tasks = before ++ t :: after ∧ t.id = id ∧
      (deleteTaskTimeout id (run fresh events)).tasks = before ++ after) ∧
    (deleteTaskTimeout id (deleteTaskTimeout id (run fresh events))).tasks =
      (deleteTaskTimeout id (run fresh events)).tasks := by
  have hwf := run_wellFormed events fresh fresh_wellFormed
  have hitems : ItemsOfFilter (run fresh events) :=
    run_itemsOfFilter events fresh (itemsOfFilter_render _)
  obtain ⟨before, t, after, e1, e2, e3⟩ :=
    filter_ne_split id (run fresh events).tasks hwf.1 h
  refine ⟨?_, ?_, ?_, ?_, ⟨before, t, after, e1, e2, e3⟩, ?_⟩
  · intro hshown
    have hmem : id ∈ (run fresh events).taskList.map (fun el => el.dataId) := by
      rw [hitems]
      exact hshown
    obtain ⟨el, hel⟩ := find?_isSome_of_mem_map id _ hmem
    have hdel : ∃ app1, deleteTask (run fresh events) id = .ok app1 := by
      unfold deleteTask
      rw [hel]
      exact ⟨_, rfl⟩
    obtain ⟨app1, hdel⟩ := hdel
    have hf := deleteTask_ok_fields _ app1 id hdel
    exact ⟨app1, hdel, hf.1, hf.2.2.2.2⟩
  · intro rest hq
    simp only [step, hq]
    rfl
  · rw [deleteTaskTimeout_tasks, e3, e1]
    simp
    omega
  · intro u hu
    rw [deleteTaskTimeout_tasks] at hu
    simpa using (List.mem_filter.1 hu).2
  · rw [deleteTaskTimeout_tasks, deleteTaskTimeout_tasks, List.filter_filter]
    simp

/-- An instance of the amended C3: the task of identifier 1 of the two tasks of the
scenario of the specification is shown, so its `deleteTask` completes. -/
theorem deleteTask_removes_exactly_one_witness :
    (1 : Int) ∈ taskIds
      (run fresh [.input "Buy milk", .addTask "t1", .input "Walk dog", .addTask "t2"]).tasks ∧
    (1 : Int) ∈ taskIds (getFilteredTasks
      (run fresh [.input "Buy milk", .addTask "t1", .input "Walk dog", .addTask "t2"])) ∧
    ∃ app1,
      deleteTask
        (run fresh [.input "Buy milk", .addTask "t1", .input "Walk dog", .addTask "t2"]) 1 =
        .ok app1 ∧
      app1.tasks =
        (run fresh [.input "Buy milk", .addTask "t1", .input "Walk dog", .addTask "t2"]).tasks ∧
      app1.timeouts =
        (run fresh [.input "Buy milk", .addTask "t1", .input "Walk dog", .addTask "t2"]).timeouts
          ++ [Timeout.removeTask 1] :=
  ⟨by decide, by decide,
   (deleteTask_removes_exactly_one
      [.input "Buy milk", .addTask "t1", .input "Walk dog", .addTask "t2"] 1 (by decide)).1
      (by decide)⟩

end TodoApp

namespace TodoApp

/-! ## Identifiers handed out by `addTask` -/

theorem issuedIds_cons_of_add (app : TodoApp) (now : String) (rest : List Event)
    (h : jsTrim app.taskInput ≠ "") :
    issuedIds app (Event.addTask now :: rest) =
      app.taskIdCounter :: issuedIds (step app (Event.addTask now)) rest := by
  simp [issuedIds, h]

theorem issuedIds_cons_of_other (app : TodoApp) (e : Event) (rest : List Event)
    (h : ∀ now, e = Event.addTask now → jsTrim app.taskInput = "") :
    issuedIds app (e :: rest) = issuedIds (step app e) rest := by
  cases e with
  | addTask now => simp [issuedIds, h now rfl]
  | _ => rfl

/-- During events without a reload, every identifier known to be below the counter
and every identifier handed out stays below the counter, and the identifiers of
the list are among those. -/
theorem issuedIds_below_counter (events : List Event) :
    ∀ (app : TodoApp) (known : List Int), Event.reload ∉ events →
      (∀ i ∈ known, i < app.taskIdCounter) → (∀ i ∈ taskIds app.tasks, i ∈ known) →
      (∀ i ∈ known ++ issuedIds app events, i < (run app events).taskIdCounter) ∧
      (∀ i ∈ taskIds (run app events).tasks, i ∈ known ++ issuedIds app events) := by
  induction events with
  | nil =>
    intro app known _ h1 h2
    simpa [issuedIds, run] using And.intro h1 h2
  | cons e rest ih =>
    intro app known hre h1 h2
    have he : e ≠ Event.reload := fun h => hre (h ▸ List.mem_cons_self _ _)
    have hrest : Event.reload ∉ rest := fun h => hre (List.mem_cons_of_mem _ h)
    rcases step_shape app e he with ⟨now, e1, e2, e3, e4, -⟩ | ⟨e1, e2, e3, -⟩
    · subst e1
      rw [issuedIds_cons_of_add app now rest e2]
      have := ih (step app (Event.addTask now)) (known ++ [app.taskIdCounter]) hrest
        (by
          intro i hi
          rw [e4]
          rcases List.mem_append.1 hi with hi | hi
          · exact lt_trans (h1 i hi) (Int.lt_add_one_iff.2 (le_refl _))
          · rw [List.mem_singleton.1 hi]
            exact Int.lt_add_one_iff.2 (le_refl _))
        (by
          intro i hi
          rw [e3] at hi
          rcases List.mem_cons.1 hi with hi | hi
          · exact List.mem_append.2 (Or.inr (List.mem_singleton.2 hi))
          · exact List.mem_append.2 (Or.inl (h2 i hi)))
      simpa [run] using this
    · rw [issuedIds_cons_of_other app e rest e1]
      exact ih (step app e) known hrest (by rw [e3]; exact h1)
        (fun i hi => h2 i (e2.subset hi))

/-- During events without a reload the identifiers handed out are strictly
increasing and not below the counter at the start. -/
theorem issuedIds_increasing (events : List Event) :
    ∀ app : TodoApp, Event.reload ∉ events →
      (issuedIds app events).Pairwise (fun i j => i < j) ∧
      (∀ i ∈ issuedIds app events, app.taskIdCounter ≤ i) := by
  induction events with
  | nil =>
    intro app _
    simp [issuedIds]
  | cons e rest ih =>
    intro app hre
    have he : e ≠ Event.reload := fun h => hre (h ▸ List.mem_cons_self _ _)
    have hrest : Event.reload ∉ rest := fun h => hre (List.mem_cons_of_mem _ h)
    obtain ⟨ih1, ih2⟩ := ih (step app e) hrest
    rcases step_shape app e he with ⟨now, e1, e2, -, e4, -⟩ | ⟨e1, -, e3, -⟩
    · subst e1
      rw [issuedIds_cons_of_add app now rest e2]
      rw [e4] at ih2
      refine ⟨List.pairwise_cons.2 ⟨?_, ih1⟩, ?_⟩
      · intro j hj
        exact Int.lt_of_lt_of_le (Int.lt_add_one_iff.2 (le_refl _)) (ih2 j hj)
      · intro i hi
        rcases List.mem_cons.1 hi with rfl | hi
        · exact le_refl _
        · exact le_trans (Int.le_of_lt (Int.lt_add_one_iff.2 (le_refl _))) (ih2 i hi)
    · rw [issuedIds_cons_of_other app e rest e1]
      rw [e3] at ih2
      exact ⟨ih1, ih2⟩

theorem new_ok_fields (storage : LocalStorage) (app0 : TodoApp)
    (h0 : TodoApp.new storage = .ok app0) :
    app0.taskIdCounter = nextId (taskIds app0.tasks) ∧
    (∀ l, storage.todoTasks = some (Stored.tasks l) → app0.tasks = l) ∧
    (storage.todoTasks = none → app0.tasks = []) ∧
    app0.localStorage = storage := by
  unfold TodoApp.new at h0
  cases hp : jsonParseItem storage.todoTasks with
  | error e => rw [hp] at h0; cases h0
  | ok parsed =>
    rw [hp] at h0
    injection h0 with h0
    subst h0
    refine ⟨rfl, ?_, ?_, rfl⟩
    · intro l hl
      rw [hl] at hp
      injection hp with hp
      subst hp
      rfl
    · intro hn
      rw [hn] at hp
      injection hp with hp
      subst hp
      rfl

end TodoApp

namespace TodoApp

/-- The contract of `addTask` on exact integers, in every state reached from the
constructor by events without a reload. -/
theorem addTask_exact_properties (storage : LocalStorage) (app0 : TodoApp)
    (h0 : TodoApp.new storage = .ok app0) (events : List Event)
    (hs : Event.reload ∉ events) (raw now : String) :
    (jsTrim raw = "" →
      addTaskWith (run app0 events) raw now = step (run app0 events) (Event.input raw) ∧
      (addTaskWith (run app0 events) raw now).tasks = (run app0 events).tasks ∧
      (addTaskWith (run app0 events) raw now).taskIdCounter =
        (run app0 events).taskIdCounter ∧
      (addTaskWith (run app0 events) raw now).localStorage = (run app0 events).localStorage) ∧
    (jsTrim raw ≠ "" →
      ∃ task : Task,
        (addTaskWith (run app0 events) raw now).tasks = task :: (run app0 events).tasks ∧
        (addTaskWith (run app0 events) raw now).tasks.length =
          (run app0 events).tasks.length + 1 ∧
        task.text = jsTrim raw ∧ task.completed = false ∧ task.createdAt = now ∧
        (∀ i ∈ taskIds app0.tasks ++ issuedIds app0 events, i < task.id) ∧
        (∀ i ∈ taskIds (run app0 events).tasks, i < task.id) ∧
        (addTaskWith (run app0 events) raw now).taskIdCounter = task.id + 1 ∧
        (addTaskWith (run app0 events) raw now).localStorage =
          { todoTasks := some (Stored.tasks (addTaskWith (run app0 events) raw now).tasks)
            setItemCalls := (run app0 events).localStorage.setItemCalls + 1 }) := by
  constructor
  · intro hraw
    have : addTaskWith (run app0 events) raw now = step (run app0 events) (Event.input raw) :=
      addTask_of_empty { run app0 events with taskInput := raw } now hraw
    rw [this]
    exact ⟨rfl, rfl, rfl, rfl⟩
  · intro hraw
    have hcounter := (new_ok_fields storage app0 h0).1
    obtain ⟨hb1, hb2⟩ := issuedIds_below_counter events app0 (taskIds app0.tasks) hs
      (by rw [hcounter]; exact lt_nextId _) (fun i hi => hi)
    obtain ⟨a1, a2, a3⟩ :=
      addTask_of_nonempty { run app0 events with taskInput := raw } now hraw
    refine ⟨{ id := (run app0 events).taskIdCounter, text := jsTrim raw, completed := false,
              createdAt := now }, a1, ?_, rfl, rfl, rfl, hb1, ?_, a2, a3⟩
    · show (addTask { run app0 events with taskInput := raw } now).tasks.length = _
      rw [a1]
      rfl
    · intro i hi
      exact hb1 i (hb2 i hi)

/-! ## The counter on JavaScript numbers -/

theorem jsAddOne_of_safe (n : Int) (h1 : -9007199254740992 ≤ n) (h2 : n < 9007199254740992) :
    jsAddOne n = n + 1 := by
  unfold jsAddOne
  rw [if_pos ⟨h1, h2⟩]

theorem le_jsAddOne (n : Int) : n ≤ jsAddOne n := by
  unfold jsAddOne
  split_ifs <;> omega

theorem addTaskDouble_eq_addTask (app : TodoApp) (now : String)
    (h1 : -9007199254740992 ≤ app.taskIdCounter) (h2 : app.taskIdCounter < 9007199254740992) :
    addTaskDouble app now = addTask app now := by
  unfold addTaskDouble addTask
  rw [jsAddOne_of_safe _ h1 h2]

theorem addTaskDouble_counter_ge (app : TodoApp) (now : String) :
    app.taskIdCounter ≤ (addTaskDouble app now).taskIdCounter := by
  unfold addTaskDouble
  dsimp only
  split_ifs
  · exact le_refl _
  · exact le_jsAddOne _

theorem stepDouble_eq_step (app : TodoApp) (e : Event) (he : e ≠ Event.reload)
    (h1 : -9007199254740992 ≤ app.taskIdCounter) (h2 : app.taskIdCounter < 9007199254740992) :
    stepDouble app e = step app e := by
  cases e with
  | addTask now => exact addTaskDouble_eq_addTask app now h1 h2
  | reload => exact absurd rfl he
  | _ => rfl

theorem stepDouble_counter_ge (app : TodoApp) (e : Event) (he : e ≠ Event.reload) :
    app.taskIdCounter ≤ (stepDouble app e).taskIdCounter := by
  by_cases hadd : ∃ now, e = Event.addTask now
  · obtain ⟨now, rfl⟩ := hadd
    exact addTaskDouble_counter_ge app now
  · have hstep : stepDouble app e = step app e := by
      cases e with
      | addTask now => exact absurd ⟨now, rfl⟩ hadd
      | reload => exact absurd rfl he
      | _ => rfl
    rw [hstep]
    rcases step_shape app e he with ⟨now, e1, -⟩ | ⟨-, -, e3, -⟩
    · exact absurd ⟨now, e1⟩ hadd
    · rw [e3]

theorem runDouble_counter_ge (events : List Event) :
    ∀ app : TodoApp, Event.reload ∉ events →
      app.taskIdCounter ≤ (runDouble app events).taskIdCounter := by
  induction events with
  | nil => intro app _; exact le_refl _
  | cons e rest ih =>
    intro app hre
    have he : e ≠ Event.reload := fun h => hre (h ▸ List.mem_cons_self _ _)
    have hrest : Event.reload ∉ rest := fun h => hre (List.mem_cons_of_mem _ h)
    exact le_trans (stepDouble_counter_ge app e he) (ih (stepDouble app e) hrest)

theorem issuedIdsDouble_cons (app : TodoApp) (e : Event) (rest : List Event)
    (h : stepDouble app e = step app e) :
    issuedIdsDouble app (e :: rest) =
      (issuedIds app [e]) ++ issuedIdsDouble (step app e) rest := by
  cases e with
  | addTask now =>
    simp only [issuedIdsDouble, issuedIds, List.append_nil]
    rw [h]
  | _ => exact congrArg (fun a => issuedIdsDouble a rest) h

theorem issuedIds_cons (app : TodoApp) (e : Event) (rest : List Event) :
    issuedIds app (e :: rest) = (issuedIds app [e]) ++ issuedIds (step app e) rest := by
  cases e with
  | addTask now => simp only [issuedIds, List.append_nil]
  | _ => rfl

/-- While the counter stays below `2^53`, a run without reload is the same on
JavaScript numbers and on exact integers. -/
theorem runDouble_eq_run (events : List Event) :
    ∀ app : TodoApp, Event.reload ∉ events →
      -9007199254740992 ≤ app.taskIdCounter →
      (runDouble app events).taskIdCounter < 9007199254740992 →
      runDouble app events = run app events ∧
      issuedIdsDouble app events = issuedIds app events := by
  induction events with
  | nil => intro app _ _ _; exact ⟨rfl, rfl⟩
  | cons e rest ih =>
    intro app hre h1 h2
    have he : e ≠ Event.reload := fun h => hre (h ▸ List.mem_cons_self _ _)
    have hrest : Event.reload ∉ rest := fun h => hre (List.mem_cons_of_mem _ h)
    have hmono1 := stepDouble_counter_ge app e he
    have hmono2 := runDouble_counter_ge rest (stepDouble app e) hrest
    have h2' : (runDouble (stepDouble app e) rest).taskIdCounter < 9007199254740992 := h2
    have hstep : stepDouble app e = step app e :=
      stepDouble_eq_step app e he h1 (by omega)
    have ih' := ih (step app e) hrest (by rw [← hstep]; omega) (by rw [← hstep]; exact h2')
    constructor
    · show runDouble (stepDouble app e) rest = run (step app e) rest
      rw [hstep]
      exact ih'.1
    · rw [issuedIdsDouble_cons app e rest hstep, ih'.2]
      exact (issuedIds_cons app e rest).symm

theorem foldl_max_mem (l : List Int) : ∀ a : Int, l.foldl max a = a ∨ l.foldl max a ∈ l := by
  induction l with
  | nil => intro a; exact Or.inl rfl
  | cons b rest ih =>
    intro a
    rcases ih (max a b) with h | h
    · rcases max_choice a b with hm | hm
      · exact Or.inl (by rw [List.foldl_cons, h, hm])
      · exact Or.inr (by rw [List.foldl_cons, h, hm]; exact List.mem_cons_self _ _)
    · exact Or.inr (List.mem_cons_of_mem _ h)

theorem nextIdDouble_eq_nextId (l : List Int)
    (h : ∀ i ∈ l, -9007199254740992 ≤ i ∧ i < 9007199254740992) :
    nextIdDouble l = nextId l := by
  cases l with
  | nil => rfl
  | cons a rest =>
    have hm : rest.foldl max a ∈ a :: rest := by
      rcases foldl_max_mem rest a with hm | hm
      · rw [hm]; exact List.mem_cons_self _ _
      · exact List.mem_cons_of_mem _ hm
    exact jsAddOne_of_safe _ (h _ hm).1 (h _ hm).2

theorem newDouble_ok_fields (storage : LocalStorage) (app0 : TodoApp)
    (h0 : newDouble storage = .ok app0) :
    app0.taskIdCounter = nextIdDouble (taskIds app0.tasks) ∧
    (nextIdDouble (taskIds app0.tasks) = nextId (taskIds app0.tasks) →
      TodoApp.new storage = .ok app0) := by
  unfold newDouble at h0
  unfold TodoApp.new
  cases hp : jsonParseItem storage.todoTasks with
  | error e => rw [hp] at h0; cases h0
  | ok parsed =>
    rw [hp] at h0
    injection h0 with h0
    subst h0
    refine ⟨rfl, ?_⟩
    intro heq
    have heq' : nextIdDouble ((parsed.getD []).map (fun t => t.id)) =
        nextId ((parsed.getD []).map (fun t => t.id)) := heq
    simp only [heq']

theorem le_nextIdDouble (l : List Int) : ∀ i ∈ l, i ≤ nextIdDouble l := by
  cases l with
  | nil => intro i hi; cases hi
  | cons a rest =>
    intro i hi
    have h := le_foldl_max rest a
    have h1 : rest.foldl max a ≤ nextIdDouble (a :: rest) := le_jsAddOne _
    rcases List.mem_cons.1 hi with rfl | hi
    · exact le_trans h.1 h1
    · exact le_trans (h.2 i hi) h1

/-! ## Runs from an empty storage on JavaScript numbers -/

theorem nextId_le_of_lt (l : List Int) (c : Int) (hc : 1 ≤ c) (h : ∀ i ∈ l, i < c) :
    nextId l ≤ c := by
  cases l with
  | nil => exact hc
  | cons a rest =>
    have hm : rest.foldl max a ∈ a :: rest := by
      rcases foldl_max_mem rest a with hm | hm
      · rw [hm]; exact List.mem_cons_self _ _
      · exact List.mem_cons_of_mem _ hm
    have := h _ hm
    show rest.foldl max a + 1 ≤ c
    omega

theorem one_le_nextId (l : List Int) (h : ∀ i ∈ l, 1 ≤ i) : 1 ≤ nextId l := by
  cases l with
  | nil => exact le_refl _
  | cons a rest =>
    have h1 := lt_nextId (a :: rest) a (List.mem_cons_self _ _)
    have h2 := h a (List.mem_cons_self _ _)
    omega

theorem stepDouble_reload_eq (app : TodoApp) (hs : Synced app)
    (h : nextIdDouble (taskIds app.tasks) = nextId (taskIds app.tasks)) :
    stepDouble app Event.reload = step app Event.reload := by
  have h' : nextIdDouble (app.tasks.map (fun t => t.id)) =
      nextId (app.tasks.map (fun t => t.id)) := h
  rcases hs with hs | ⟨hs1, hs2⟩
  · simp only [stepDouble, step, newDouble, TodoApp.new, hs, jsonParseItem, Option.getD_some, h']
  · rw [hs2] at h'
    simp only [stepDouble, step, newDouble, TodoApp.new, hs1, jsonParseItem, Option.getD_none, h']

/-- One event from a state reached after at most `n` events from an empty storage:
as long as `n + 1` is below `2^53`, the event has the same effect on JavaScript
numbers and on exact integers, and the counter grows by at most one. -/
theorem stepDouble_eq_step_of_bounded (app : TodoApp) (e : Event) (n : Int)
    (hwf : WellFormed app) (hpos : ∀ i ∈ taskIds app.tasks, 1 ≤ i)
    (hc1 : 1 ≤ app.taskIdCounter) (hc2 : app.taskIdCounter ≤ n + 1)
    (hn : n + 1 < 9007199254740992) :
    stepDouble app e = step app e ∧
    (∀ i ∈ taskIds (step app e).tasks, 1 ≤ i) ∧
    1 ≤ (step app e).taskIdCounter ∧ (step app e).taskIdCounter ≤ n + 1 + 1 := by
  by_cases he : e = Event.reload
  · subst he
    obtain ⟨h1, h2, -⟩ := step_reload app hwf.2.2
    have hsafe : ∀ i ∈ taskIds app.tasks,
        -9007199254740992 ≤ i ∧ i < 9007199254740992 := by
      intro i hi
      have a1 := hpos i hi
      have a2 := hwf.2.1 i hi
      exact ⟨by omega, by omega⟩
    refine ⟨stepDouble_reload_eq app hwf.2.2 (nextIdDouble_eq_nextId _ hsafe), ?_, ?_, ?_⟩
    · rw [h1]; exact hpos
    · rw [h2]; exact one_le_nextId _ hpos
    · rw [h2]
      have := nextId_le_of_lt (taskIds app.tasks) app.taskIdCounter hc1 hwf.2.1
      omega
  · refine ⟨stepDouble_eq_step app e he (by omega) (by omega), ?_⟩
    rcases step_shape app e he with ⟨now, -, -, e3, e4, -⟩ | ⟨-, e2, e3, -⟩
    · refine ⟨?_, by omega, by omega⟩
      rw [e3]
      intro i hi
      rcases List.mem_cons.1 hi with hi | hi
      · rw [hi]; exact hc1
      · exact hpos i hi
    · exact ⟨fun i hi => hpos i (e2.subset hi), by omega, by omega⟩

theorem runDouble_eq_run_of_bounded (events : List Event) :
    ∀ (app : TodoApp) (n : Int), WellFormed app → (∀ i ∈ taskIds app.tasks, 1 ≤ i) →
      1 ≤ app.taskIdCounter → app.taskIdCounter ≤ n + 1 →
      n + events.length < 9007199254740992 →
      runDouble app events = run app events ∧
      issuedIdsDouble app events = issuedIds app events := by
  induction events with
  | nil => intro app n _ _ _ _ _; exact ⟨rfl, rfl⟩
  | cons e rest ih =>
    intro app n hwf hpos hc1 hc2 hn
    have hlen : ((e :: rest).length : Int) = (rest.length : Int) + 1 := by
      simp
    obtain ⟨hstep, a1, a2, a3⟩ :=
      stepDouble_eq_step_of_bounded app e n hwf hpos hc1 hc2 (by omega)
    have ih' := ih (step app e) (n + 1) (step_wellFormed app e hwf) a1 a2 a3 (by omega)
    constructor
    · show runDouble (stepDouble app e) rest = run (step app e) rest
      rw [hstep]
      exact ih'.1
    · rw [issuedIdsDouble_cons app e rest hstep, ih'.2]
      exact (issuedIds_cons app e rest).symm

/-- From an empty storage, every run of fewer than `2^53` events (reloads included)
is the same on JavaScript numbers and on exact integers: same states, same
identifiers handed out. -/
theorem runDouble_fresh_eq_run (events : List Event)
    (h : (events.length : Int) < 9007199254740992) :
    newDouble emptyStorage = .ok fresh ∧
    runDouble fresh events = run fresh events ∧
    issuedIdsDouble fresh events = issuedIds fresh events := by
  refine ⟨rfl, ?_⟩
  exact runDouble_eq_run_of_bounded events fresh 0 fresh_wellFormed
    (fun i hi => by cases hi) (by decide) (by decide) (by omega)

/-- C1, refuted: a list with one task of identifier `2^53` is loaded.  The
constructor computes the counter `2^53 + 1`, which as a JavaScript number is
`2^53`; `addTask` gives the new task the identifier `2^53`, which the loaded task
has already, and the counter stays at `2^53`. -/
theorem addTask_repeats_identifier_at_two_pow_53 :
    ∃ app0 : TodoApp,
      newDouble
        { todoTasks := some (Stored.tasks [Task.mk 9007199254740992 "old" false "t0"])
          setItemCalls := 0 } = .ok app0 ∧
      app0.tasks = [Task.mk 9007199254740992 "old" false "t0"] ∧
      jsTrim "new" ≠ "" ∧
      (addTaskWithDouble app0 "new" "t1").tasks =
        [Task.mk 9007199254740992 "new" false "t1", Task.mk 9007199254740992 "old" false "t0"] ∧
      (addTaskWithDouble app0 "new" "t1").taskIdCounter = 9007199254740992 ∧
      ¬ ∀ i ∈ taskIds app0.tasks, i < 9007199254740992 := by
  refine ⟨_, rfl, rfl, by decide, by decide, by decide, by decide⟩

/-- C1, amended: the arithmetic on the counter being that of JavaScript numbers,
take any state reached from the constructor by events of the page (a reload runs
the constructor anew, and the statement then holds from that run on) in which the
counter is below `2^53`, no loaded identifier being below `-2^53`.  There `addTask` on
a raw text whose trimmed form is empty changes nothing besides the text-entry field
(list, counter and storage stay, no `setItem` call); otherwise the list is the old
list with one new task in front, whose text is the trimmed raw text, whose
`completed` flag is false and whose identifier is greater than every identifier of
the loaded list, every identifier handed out by an earlier `addTask` and every
identifier in the list; the counter goes up by one and the new list is written to
storage. -/
theorem addTask_contract (storage : LocalStorage) (app0 : TodoApp)
    (h0 : newDouble storage = .ok app0) (events : List Event)
    (hs : Event.reload ∉ events)
    (hloaded : ∀ i ∈ taskIds app0.tasks, -9007199254740992 ≤ i)
    (hcounter : (runDouble app0 events).taskIdCounter < 9007199254740992)
    (raw now : String) :
    (jsTrim raw = "" →
      addTaskWithDouble (runDouble app0 events) raw now =
        stepDouble (runDouble app0 events) (Event.input raw) ∧
      (addTaskWithDouble (runDouble app0 events) raw now).tasks =
        (runDouble app0 events).tasks ∧
      (addTaskWithDouble (runDouble app0 events) raw now).taskIdCounter =
        (runDouble app0 events).taskIdCounter ∧
      (addTaskWithDouble (runDouble app0 events) raw now).localStorage =
        (runDouble app0 events).localStorage) ∧
    (jsTrim raw ≠ "" →
      ∃ task : Task,
        (addTaskWithDouble (runDouble app0 events) raw now).tasks =
          task :: (runDouble app0 events).tasks ∧
        (addTaskWithDouble (runDouble app0 events) raw now).tasks.length =
          (runDouble app0 events).tasks.length + 1 ∧
        task.text = jsTrim raw ∧ task.completed = false ∧ task.createdAt = now ∧
        (∀ i ∈ taskIds app0.tasks ++ issuedIdsDouble app0 events, i < task.id) ∧
        (∀ i ∈ taskIds (runDouble app0 events).tasks, i < task.id) ∧
        (addTaskWithDouble (runDouble app0 events) raw now).taskIdCounter = task.id + 1 ∧
        (addTaskWithDouble (runDouble app0 events) raw now).localStorage =
          { todoTasks :=
              some (Stored.tasks (addTaskWithDouble (runDouble app0 events) raw now).tasks)
            setItemCalls := (runDouble app0 events).localStorage.setItemCalls + 1 }) := by
  obtain ⟨hc0, hnew⟩ := newDouble_ok_fields storage app0 h0
  have hmono := runDouble_counter_ge events app0 hs
  have hsafe : ∀ i ∈ taskIds app0.tasks,
      -9007199254740992 ≤ i ∧ i < 9007199254740992 := by
    intro i hi
    have := le_nextIdDouble (taskIds app0.tasks) i hi
    exact ⟨hloaded i hi, by omega⟩
  have hnext := nextIdDouble_eq_nextId (taskIds app0.tasks) hsafe
  have hnew' : TodoApp.new storage = .ok app0 := hnew hnext
  have hlow : -9007199254740992 ≤ app0.taskIdCounter := by
    rw [hc0, hnext]
    cases hl : taskIds app0.tasks with
    | nil => decide
    | cons a rest =>
      have h1 := lt_nextId (a :: rest) a (List.mem_cons_self _ _)
      have h2 := hloaded a (by rw [hl]; exact List.mem_cons_self _ _)
      omega
  obtain ⟨hrun, hissued⟩ := runDouble_eq_run events app0 hs hlow hcounter
  have hadd : addTaskWithDouble (runDouble app0 events) raw now =
      addTaskWith (run app0 events) raw now := by
    rw [hrun] at hmono hcounter ⊢
    exact addTaskDouble_eq_addTask { run app0 events with taskInput := raw } now
      (le_trans hlow hmono) hcounter
  have hinput : stepDouble (runDouble app0 events) (Event.input raw) =
      step (run app0 events) (Event.input raw) := by
    rw [hrun]
    rfl
  rw [hadd, hinput, hissued, hrun]
  exact addTask_exact_properties storage app0 hnew' events hs raw now

/-- An instance of the amended C1: a list with one task of identifier 5 is loaded,
one task is added, and then the raw text `"  Walk dog "` is added. -/
theorem addTask_contract_witness :
    ∃ app0 : TodoApp,
      newDouble
        { todoTasks := some (Stored.tasks [Task.mk 5 "Old" true "t0"]), setItemCalls := 0 } =
        .ok app0 ∧
      Event.reload ∉ [Event.input "Buy milk", Event.addTask "t1"] ∧
      (∀ i ∈ taskIds app0.tasks, -9007199254740992 ≤ i) ∧
      (runDouble app0 [Event.input "Buy milk", Event.addTask "t1"]).taskIdCounter <
        9007199254740992 ∧
      jsTrim "  Walk dog " ≠ "" ∧
      ∃ task : Task,
        (addTaskWithDouble (runDouble app0 [Event.input "Buy milk", Event.addTask "t1"])
          "  Walk dog " "t2").tasks =
          task :: (runDouble app0 [Event.input "Buy milk", Event.addTask "t1"]).tasks ∧
        task.text = jsTrim "  Walk dog " ∧ task.completed = false := by
  refine ⟨_, rfl, by decide, by decide, by decide, by decide, ?_⟩
  obtain ⟨task, h1, -, h3, h4, -⟩ :=
    (addTask_contract
      { todoTasks := some (Stored.tasks [Task.mk 5 "Old" true "t0"]), setItemCalls := 0 }
      _ rfl [Event.input "Buy milk", Event.addTask "t1"] (by decide) (by decide) (by decide)
      "  Walk dog " "t2").2 (by decide)
  exact ⟨task, h1, h3, h4⟩

/-! ## Reuse of identifiers -/

/-- C9, refuted: two tasks are added (identifiers 1 and 2), the task of
identifier 2 is deleted, the page is reloaded and a task is added: it gets the
identifier 2 again. -/
theorem identifier_reused_after_reload :
    issuedIds fresh
      [.input "a", .addTask "t1", .input "b", .addTask "t2", .deleteTask 2, .timeout,
       .reload, .input "c", .addTask "t3"] = [1, 2, 2] ∧
    ¬ (issuedIds fresh
      [.input "a", .addTask "t1", .input "b", .addTask "t2", .deleteTask 2, .timeout,
       .reload, .input "c", .addTask "t3"]).Nodup ∧
    (run fresh
      [.input "a", .addTask "t1", .input "b", .addTask "t2", .deleteTask 2, .timeout,
       .reload, .input "c", .addTask "t3"]).tasks =
      [{ id := 2, text := "c", completed := false, createdAt := "t3" },
       { id := 1, text := "a", completed := false, createdAt := "t1" }] := by
  decide

/-- C9, amended: from an empty storage, after every sequence of events (reloads
included), the identifiers of the list are pairwise distinct and below the counter,
which is the identifier the next `addTask` assigns; and in events that follow
without a reload, the identifiers assigned are strictly increasing, greater than
every identifier of the list at the start, and the list keeps pairwise distinct
identifiers. -/
theorem identifiers_unique_between_reloads (events session : List Event)
    (hs : Event.reload ∉ session) :
    (taskIds (run fresh events).tasks).Nodup ∧
    (∀ i ∈ taskIds (run fresh events).tasks, i < (run fresh events).taskIdCounter) ∧
    (issuedIds (run fresh events) session).Pairwise (fun i j => i < j) ∧
    (∀ i ∈ issuedIds (run fresh events) session,
      ∀ j ∈ taskIds (run fresh events).tasks, j < i) ∧
    (taskIds (run (run fresh events) session).tasks).Nodup := by
  have hwf := run_wellFormed events fresh fresh_wellFormed
  obtain ⟨h1, h2⟩ := issuedIds_increasing session (run fresh events) hs
  refine ⟨hwf.1, hwf.2.1, h1, ?_, (run_wellFormed session _ hwf).1⟩
  intro i hi j hj
  exact Int.lt_of_lt_of_le (hwf.2.1 j hj) (h2 i hi)

/-- An instance of the amended C9: after the reload of the refuting run, two more
tasks get the identifiers 2 and 3. -/
theorem identifiers_unique_between_reloads_witness :
    Event.reload ∉ [Event.input "c", Event.addTask "t3", Event.input "d", Event.addTask "t4"] ∧
    (issuedIds
      (run fresh [.input "a", .addTask "t1", .input "b", .addTask "t2", .deleteTask 2,
        .timeout, .reload])
      [Event.input "c", Event.addTask "t3", Event.input "d", Event.addTask "t4"]).Pairwise
      (fun i j => i < j) :=
  ⟨by decide,
   (identifiers_unique_between_reloads
      [.input "a", .addTask "t1", .input "b", .addTask "t2", .deleteTask 2, .timeout, .reload]
      [Event.input "c", Event.addTask "t3", Event.input "d", Event.addTask "t4"]
      (by decide)).2.2.1⟩

end TodoApp

namespace TodoApp

/-! ## Editing a task -/

theorem find?_filter_of_pass (p q : Task → Bool) (t : Task) :
    ∀ l : List Task, l.find? p = some t → q t = true → (l.filter q).find? p = some t
  | [], h, _ => by simp at h
  | x :: xs, h, hq => by
    by_cases hx : p x
    · have hxt : x = t := by simpa [List.find?, hx] using h
      subst hxt
      rw [List.filter_cons_of_pos hq]
      simp [List.find?, hx]
    · have h1 : xs.find? p = some t := by simpa [List.find?, hx] using h
      have ih := find?_filter_of_pass p q t xs h1 hq
      by_cases hqx : q x
      · rw [List.filter_cons_of_pos hqx]
        simpa [List.find?, hx] using ih
      · rw [List.filter_cons_of_neg hqx]
        exact ih

theorem find?_getFilteredTasks (app : TodoApp) (id : Int) (t : Task)
    (hfind : app.tasks.find? (fun task => task.id == id) = some t)
    (hshown : t ∈ getFilteredTasks app) :
    (getFilteredTasks app).find? (fun task => task.id == id) = some t := by
  unfold getFilteredTasks at hshown ⊢
  split_ifs at hshown ⊢ with h1 h2
  · exact find?_filter_of_pass _ _ t _ hfind (List.mem_filter.1 hshown).2
  · exact find?_filter_of_pass _ _ t _ hfind (List.mem_filter.1 hshown).2
  · exact hfind

theorem find?_of_displayed (id : Int) (t : Task) :
    ∀ (els : List TaskElement) (l : List Task),
      els.map (fun el => (el.dataId, el.textContent)) =
        l.map (fun t => (t.id, displayedText t.text)) →
      l.find? (fun task => task.id == id) = some t →
      ∃ el, els.find? (fun el => el.dataId == id) = some el ∧
        el.textContent = displayedText t.text
  | _, [], _, h => by simp at h
  | [], x :: xs, hmap, _ => by simp at hmap
  | el :: els, x :: xs, hmap, h => by
    simp only [List.map_cons, List.cons.injEq, Prod.mk.injEq] at hmap
    obtain ⟨⟨hid, htext⟩, hrest⟩ := hmap
    by_cases hx : x.id = id
    · have hb : (x.id == id) = true := by simpa using hx
      have hxt : x = t := by simpa [List.find?, hb] using h
      subst hxt
      exact ⟨el, by simp [List.find?, hid, hb], htext⟩
    · have hb : (x.id == id) = false := by simpa using hx
      have h1 : xs.find? (fun task => task.id == id) = some t := by
        simpa [List.find?, hb] using h
      obtain ⟨el1, e1, e2⟩ := find?_of_displayed id t els xs hrest h1
      exact ⟨el1, by simpa [List.find?, hid, hb] using e1, e2⟩

theorem displayed_render (app : TodoApp) : Displayed (render app) := by
  unfold Displayed
  rw [render_taskList, getFilteredTasks_render, List.map_map]
  apply List.map_congr_left
  intro t _
  show ((createTaskElement t).dataId, (createTaskElement t).textContent) =
    (t.id, displayedText t.text)
  rw [createTaskElement_textContent]
  rfl

/-- C2, refuted: a task with the text `a`, CR, `b` is loaded; the page shows it as
`a`, LF, `b`.  An edit to the text `a`, LF, `b`, which is not the text of the task,
completes and replaces nothing and writes nothing: `saveEdit` compares the new text
with the text of the rendered item. -/
theorem editTask_compares_displayed_text :
    ∃ app0 app1 : TodoApp,
      TodoApp.new
        { todoTasks := some (Stored.tasks [Task.mk 1 "a\rb" false "t0"]), setItemCalls := 0 } =
        .ok app0 ∧
      app0.tasks = [Task.mk 1 "a\rb" false "t0"] ∧
      jsTrim "a\nb" ≠ "" ∧ jsTrim "a\nb" ≠ "a\rb" ∧
      editTaskWith app0 1 "a\nb" = .ok app1 ∧
      app1.tasks = [Task.mk 1 "a\rb" false "t0"] ∧
      app1.localStorage = app0.localStorage :=
  ⟨_, _, rfl, rfl, by decide, by decide, rfl, rfl, rfl⟩

/-- C2, amended: let `t` be the task that the list holds for the identifier (the
first with it), shown under the current filter, the rendered items being those
that `render` builds for the list and the filter.  Then an edit with a new text
completes; if the trimmed new text is empty or equal to the text of `t` as the
page shows it (the text of `t` itself when it holds no CR and no NUL), the list and
the storage are untouched (no `setItem` call); otherwise the list is the old one
with the text of `t` replaced by the trimmed new text (identifier, flag, creation
time, the other tasks and the order unchanged) and that list is written to storage
by one `setItem` call. -/
theorem editTask_contract (app : TodoApp) (id : Int) (newText : String) (t : Task)
    (hd : Displayed app)
    (hfind : app.tasks.find? (fun task => task.id == id) = some t)
    (hshown : t ∈ getFilteredTasks app) :
    (∃ app1, editTaskWith app id newText = .ok app1 ∧
      ((jsTrim newText = "" ∨ jsTrim newText = displayedText t.text) →
        app1.tasks = app.tasks ∧ app1.localStorage = app.localStorage) ∧
      (¬ (jsTrim newText = "" ∨ jsTrim newText = displayedText t.text) →
        ∃ before after, app.tasks = before ++ t :: after ∧ (∀ u ∈ before, u.id ≠ id) ∧
          app1.tasks = before ++ { t with text := jsTrim newText } :: after ∧
          app1.localStorage =
            { todoTasks := some (Stored.tasks app1.tasks)
              setItemCalls := app.localStorage.setItemCalls + 1 })) ∧
    ('\r' ∉ t.text.data → '\x00' ∉ t.text.data → displayedText t.text = t.text) := by
  obtain ⟨el, hel, htext⟩ := find?_of_displayed id t app.taskList (getFilteredTasks app) hd
    (find?_getFilteredTasks app id t hfind hshown)
  have hedit : editTask app id =
      .ok ({ app with
             taskList := (mutateFirst (fun el => el.dataId == id)
               (fun el => { el with editMode := true, contentEditable := true })
               app.taskList) },
           { id := id, currentText := displayedText t.text }) := by
    unfold editTask
    simp only [hel, htext]
  refine ⟨⟨_, by unfold editTaskWith; rw [hedit], ?_, ?_⟩, ?_⟩
  · intro hc
    have hcond : ¬ (jsTrim newText ≠ "" ∧ jsTrim newText ≠ displayedText t.text) := by
      rintro ⟨c1, c2⟩
      rcases hc with hc | hc
      · exact c1 hc
      · exact c2 hc
    unfold saveEdit
    dsimp only
    rw [if_neg hcond]
    exact ⟨rfl, rfl⟩
  · intro hc
    have hcond : jsTrim newText ≠ "" ∧ jsTrim newText ≠ displayedText t.text :=
      ⟨fun c => hc (Or.inl c), fun c => hc (Or.inr c)⟩
    obtain ⟨before, after, e1, e2, e3⟩ := mutateFirst_split (fun task => task.id == id)
      (fun task => { task with text := jsTrim newText }) app.tasks t hfind
    refine ⟨before, after, e1, fun u hu => by simpa using e2 u hu, ?_⟩
    unfold saveEdit
    dsimp only
    rw [if_pos hcond, hfind]
    exact ⟨e3, rfl⟩
  · intro h1 h2
    show (⟨displayedChars t.text.data⟩ : String) = t.text
    rw [displayedChars_of_clean t.text.data h1 h2]

/-- An instance of the amended C2: two tasks under the filter `all`, the task of
identifier 1 gets the text `Buy bread`. -/
theorem editTask_contract_witness :
    Displayed (run fresh [.input "Buy milk", .addTask "t1", .input "Walk dog", .addTask "t2"]) ∧
    ∃ app1 before after,
      editTaskWith
        (run fresh [.input "Buy milk", .addTask "t1", .input "Walk dog", .addTask "t2"])
        1 " Buy bread " = .ok app1 ∧
      (run fresh [.input "Buy milk", .addTask "t1", .input "Walk dog", .addTask "t2"]).tasks =
        before ++ Task.mk 1 "Buy milk" false "t1" :: after ∧
      app1.tasks = before ++ Task.mk 1 (jsTrim " Buy bread ") false "t1" :: after := by
  have hd : Displayed
      (run fresh [.input "Buy milk", .addTask "t1", .input "Walk dog", .addTask "t2"]) :=
    displayed_render _
  refine ⟨hd, ?_⟩
  obtain ⟨⟨app1, h1, -, h3⟩, -⟩ := editTask_contract
    (run fresh [.input "Buy milk", .addTask "t1", .input "Walk dog", .addTask "t2"])
    1 " Buy bread " (Task.mk 1 "Buy milk" false "t1") hd (by decide) (by decide)
  obtain ⟨before, after, e1, -, e3, -⟩ := h3 (by decide)
  exact ⟨app1, before, after, h1, e1, e3⟩

end TodoApp
